import Mathlib

/-!
# CAL image reader (`cal.c`): checksum, section scanner, block reader

A shallow embedding of `crc32`, `is_header`, `find_section` and
`cal_read_block` of `src/cal.c`, followed by theorems about them.

Conventions of the embedding:

* a byte is a `Nat` below 256 and a buffer (`pointer`, `size`) is a `List Nat`;
  `data + offset` is `data.drop offset`;
* `uint32_t` values are `Nat`s below `2 ^ 32`; the only 32-bit operations the
  code performs on them (`>> 1`, `^ poly`) cannot leave that range, so no
  reduction modulo `2 ^ 32` is needed;
* `struct header` is packed (36 bytes) and multi-byte fields are read in
  little-endian byte order (the byte order of the devices the CAL area lives on);
* a C string argument is the list of its bytes; `strcmp` sees it up to the
  first NUL byte;
* `count` (`uint64_t`) and `offset` (`int64_t`) are a `Nat` and an `Int`: `count` is the
  size of an object in memory and `offset + count` stays equal to it, so neither can wrap;
  `count - sizeof(struct header)` is evaluated only when `count >= 36`, and
  `sizeof(struct header) + payload_len` only when `payload_len <= count - 36`;
* `malloc` is a parameter telling for which sizes the allocation succeeds.
-/

namespace Cal

/-! ## Constants and the header layout -/

/-- The macro `INDEX_LAST`, defined as `(0xFF + 1)`. -/
def INDEX_LAST : Int := 0xFF + 1

/-- The macro `HDR_MAGIC`, the string "ConF", as bytes. -/
def HDR_MAGIC : List Nat := [67, 111, 110, 70]

/-- The value of `sizeof(struct header)`: 4 + 1 + 1 + 2 + 16 + 4 + 4 + 4 with the packed
attribute. -/
def HDR_SIZE : Nat := 36

/-- Little-endian 16-bit read of the first two bytes of `p`. -/
def le16 (p : List Nat) : Nat :=
  p.getD 0 0 + 256 * p.getD 1 0

/-- Little-endian 32-bit read of the first four bytes of `p`. -/
def le32 (p : List Nat) : Nat :=
  p.getD 0 0 + 256 * p.getD 1 0 + 65536 * p.getD 2 0 + 16777216 * p.getD 3 0

/-- Field `hdr->magic`: bytes 0..3. -/
def hdr_magic (hdr : List Nat) : List Nat := hdr.take 4

/-- Field `hdr->type`: byte 4. -/
def hdr_type (hdr : List Nat) : Nat := hdr.getD 4 0

/-- Field `hdr->index`: byte 5. -/
def hdr_index (hdr : List Nat) : Nat := hdr.getD 5 0

/-- Field `hdr->flags`: bytes 6..7. -/
def hdr_flags (hdr : List Nat) : Nat := le16 (hdr.drop 6)

/-- Field `hdr->name`: bytes 8..23. -/
def hdr_name (hdr : List Nat) : List Nat := (hdr.drop 8).take 16

/-- Field `hdr->length`: bytes 24..27. -/
def hdr_length (hdr : List Nat) : Nat := le32 (hdr.drop 24)

/-- Field `hdr->datasum`: bytes 28..31. -/
def hdr_datasum (hdr : List Nat) : Nat := le32 (hdr.drop 28)

/-- Field `hdr->hdrsum`: bytes 32..35. -/
def hdr_hdrsum (hdr : List Nat) : Nat := le32 (hdr.drop 32)

/-- The C string stored in a byte buffer: its bytes up to the first NUL. -/
def cstr (s : List Nat) : List Nat := s.takeWhile (fun b => b != 0)

/-- The string `strcmp` sees in `sectname`: the 16 bytes of `hdr->name` copied in front of
the NUL that `sectname[16]` always holds. -/
def sectname (hdr : List Nat) : List Nat := cstr (hdr_name hdr ++ [0])

/-! ## `crc32` -/

/-- The constant `poly` of `crc32`. -/
def poly : Nat := 0xEDB88320

/-- The inner loop `for ( bit = 8; bit; bit-- )` of `crc32`, run for `bit` rounds on the
pair (`crc`, `value`). -/
def crc32_bits : Nat → Nat → Nat → Nat
  | 0, crc, _ => crc
  | bit + 1, crc, value =>
    crc32_bits bit
      (if crc &&& 1 ≠ value &&& 1 then (crc >>> 1) ^^^ poly else crc >>> 1)
      (value >>> 1)

/-- The function `crc32(crc, data, size)` with the buffer (`data`, `size`) given as a byte list. -/
def crc32 : Nat → List Nat → Nat
  | crc, [] => crc
  | crc, value :: rest => crc32 (crc32_bits 8 crc value) rest

/-! ## `is_header` and `find_section` -/

/-- The function `is_header(data, size)`, as a `Bool`. -/
def is_header (data : List Nat) (size : Nat) : Bool :=
  if size < HDR_SIZE then false
  else if hdr_magic data ≠ HDR_MAGIC then false
  else true

/-- The local variables of `find_section` that change in its loop. -/
structure ScanState where
  count : Nat
  offset : Nat
  found_offset : Int
  previous_index : Int
deriving DecidableEq, Repr

/-- Outcome of one pass through the body of the `while ( 1 )` loop of `find_section`. -/
inductive ScanStep where
  /-- The loop is left and the function returns this value. -/
  | ret (r : Int)
  /-- The loop goes round again with these variables. -/
  | next (s : ScanState)
deriving DecidableEq, Repr

/-- One pass through the body of the loop of `find_section`. -/
def find_section_body (data : List Nat) (want_index : Int) (want_name : Option (List Nat))
    (s : ScanState) : ScanStep :=
  if s.count < HDR_SIZE then
    -- break
    .ret s.found_offset
  else if ¬ is_header (data.drop s.offset) s.count then
    .next { s with count := s.count - 1, offset := s.offset + 1 }
  else
    let hdr := data.drop s.offset
    let payload_len := hdr_length hdr
    if s.count - HDR_SIZE < payload_len then
      .ret (-1)
    else
      let next : ScanState :=
        { s with count := s.count - (HDR_SIZE + payload_len),
                 offset := s.offset + (HDR_SIZE + payload_len) }
      let skip_index : Bool :=
        if want_index = INDEX_LAST then decide ((hdr_index hdr : Int) ≤ s.previous_index)
        else decide (want_index ≥ 0 ∧ want_index ≠ (hdr_index hdr : Int))
      let skip_name : Bool :=
        match want_name with
        | none => false
        | some name => decide (sectname hdr ≠ cstr name)
      if skip_index then .next next
      else if skip_name then .next next
      else if want_index = INDEX_LAST then
        .next { next with found_offset := (s.offset : Int),
                          previous_index := (hdr_index hdr : Int) }
      else
        -- break
        .ret (s.offset : Int)

/-- The `while ( 1 )` loop of `find_section`, started from the variables `s`. -/
def find_section_loop (data : List Nat) (want_index : Int) (want_name : Option (List Nat))
    (s : ScanState) : Int :=
  match h : find_section_body data want_index want_name s with
  | .ret r => r
  | .next t => find_section_loop data want_index want_name t
termination_by s.count
decreasing_by
  unfold find_section_body at h
  simp only [HDR_SIZE] at h
  split_ifs at h <;> injection h with h <;> subst h <;> simp <;> omega

/-- The function `find_section(start, count, want_index, want_name)`; `want_name = none` is
the NULL pointer. The result is the value returned: an offset, or `-1`. -/
def find_section (start : List Nat) (count : Nat) (want_index : Int)
    (want_name : Option (List Nat)) : Int :=
  find_section_loop start want_index want_name
    { count := count, offset := 0, found_offset := -1, previous_index := -1 }

/-! ## `cal_read_block` -/

/-- The `return` statement through which `cal_read_block` leaves, in source order. -/
inductive ReadExit where
  /-- Exit `if ( find_offset < 0 ) return -1;` -/
  | not_found
  /-- Exit `if ( flags && hdr->flags != flags ) return -1;` -/
  | flags_mismatch
  /-- Exit `if ( crc32(0, hdr, sizeof(*hdr) - 4) != hdr->hdrsum ) return -1;` -/
  | hdrsum_invalid
  /-- Exit `if ( crc32(0, offset, hdr->length) != hdr->datasum ) return -1;` -/
  | datasum_invalid
  /-- Exit `if (!*ptr) return -1;` -/
  | no_memory
  /-- The final `return 0;`, with the bytes copied to `*ptr` and the value stored in `*len`. -/
  | ok (ptr : List Nat) (len : Nat)
deriving DecidableEq, Repr

/-- The `int` that `cal_read_block` returns at each of its `return` statements. -/
def ReadExit.value : ReadExit → Int
  | .not_found => -1
  | .flags_mismatch => -1
  | .hdrsum_invalid => -1
  | .datasum_invalid => -1
  | .no_memory => -1
  | .ok _ _ => 0

/-- The block handed to the caller through `*ptr` and `*len`, when there is one. -/
def ReadExit.block : ReadExit → Option (List Nat × Nat)
  | .ok ptr len => some (ptr, len)
  | _ => none

/-- The body of `cal_read_block`, recording the `return` statement taken. `mem` is
`cal->mem`, holding `cal->size = mem.length` bytes; `malloc n` tells whether the
allocation of `n` bytes succeeds. -/
def cal_read_block_exit (malloc : Nat → Bool) (mem : List Nat) (name : Option (List Nat))
    (flags : Nat) : ReadExit :=
  let filelen := mem.length
  let data := mem
  let find_offset := find_section data filelen INDEX_LAST name
  if find_offset < 0 then .not_found
  else
    let hdr := data.drop find_offset.toNat
    if flags ≠ 0 ∧ hdr_flags hdr ≠ flags then .flags_mismatch
    else if crc32 0 (hdr.take (HDR_SIZE - 4)) ≠ hdr_hdrsum hdr then .hdrsum_invalid
    else
      let offset := data.drop (find_offset.toNat + HDR_SIZE)
      if crc32 0 (offset.take (hdr_length hdr)) ≠ hdr_datasum hdr then .datasum_invalid
      else if ¬ malloc (hdr_length hdr) then .no_memory
      else .ok (offset.take (hdr_length hdr)) (hdr_length hdr)

/-- What a caller of `cal_read_block(cal, name, ptr, len, flags)` observes: the returned
`int` and, on success, the block stored through `ptr` and `len`. -/
def cal_read_block (malloc : Nat → Bool) (mem : List Nat) (name : Option (List Nat))
    (flags : Nat) : Int × Option (List Nat × Nat) :=
  ((cal_read_block_exit malloc mem name flags).value,
   (cal_read_block_exit malloc mem name flags).block)

/-! ## Images made of sections -/

/-- A section of an image: the bytes of its header and the bytes of its payload. -/
structure Sect where
  hdr : List Nat
  payload : List Nat
deriving DecidableEq, Repr

/-- The bytes a section occupies in the image. -/
def Sect.bytes (s : Sect) : List Nat := s.hdr ++ s.payload

/-- A well-formed section: a 36-byte header that starts with the magic and whose length
field is the size of the payload that follows. -/
def Sect.WellFormed (s : Sect) : Prop :=
  s.hdr.length = HDR_SIZE ∧ hdr_magic s.hdr = HDR_MAGIC ∧ hdr_length s.hdr = s.payload.length

instance (s : Sect) : Decidable s.WellFormed := by
  unfold Sect.WellFormed; infer_instance

/-- Both checksums of the section are the ones `cal_read_block` recomputes. -/
def Sect.Checksummed (s : Sect) : Prop :=
  hdr_hdrsum s.hdr = crc32 0 (s.hdr.take 32) ∧ hdr_datasum s.hdr = crc32 0 s.payload

instance (s : Sect) : Decidable s.Checksummed := by
  unfold Sect.Checksummed; infer_instance

/-- The section carries the name `X`: its name field, cut at its first NUL, is `X`. -/
def Sect.Named (s : Sect) (X : List Nat) : Prop := sectname s.hdr = X

instance (s : Sect) (X : List Nat) : Decidable (s.Named X) := by
  unfold Sect.Named; infer_instance

/-- The image that is the back-to-back concatenation of the sections. -/
def image_of (secs : List Sect) : List Nat := (secs.map Sect.bytes).flatten

/-! ## Running the scanner on concrete images

`find_section_loop` is defined by well-founded recursion; the copy below takes the number
of passes it may make as an argument, so that it can be evaluated by reduction. With more
passes allowed than `count` it is the same function. -/

/-- The loop of `find_section`, making at most `fuel` passes through its body. -/
def find_section_fuel (data : List Nat) (want_index : Int) (want_name : Option (List Nat)) :
    Nat → ScanState → Int
  | 0, s => s.found_offset
  | fuel + 1, s =>
    match find_section_body data want_index want_name s with
    | .ret r => r
    | .next t => find_section_fuel data want_index want_name fuel t

/-! ## Notions used in the statements and proofs -/

/-- The test that sends the scanner to `next` without accepting the header: the index test
of the selector, then the name test. -/
def sel_skip (want_index : Int) (want_name : Option (List Nat)) (previous_index : Int)
    (hdr : List Nat) : Bool :=
  (if want_index = INDEX_LAST then decide ((hdr_index hdr : Int) ≤ previous_index)
   else decide (want_index ≥ 0 ∧ want_index ≠ (hdr_index hdr : Int)))
  || (match want_name with
      | none => false
      | some name => decide (sectname hdr ≠ cstr name))

/-- What the scanner computes, section by section, on an image made of sections:
`off` is the offset of the first section of the list. -/
def scan_sections (want_index : Int) (want_name : Option (List Nat)) :
    List Sect → Nat → Int → Int → Int
  | [], _, found, _ => found
  | s :: rest, off, found, prev =>
    if sel_skip want_index want_name prev s.hdr then
      scan_sections want_index want_name rest (off + s.bytes.length) found prev
    else if want_index = INDEX_LAST then
      scan_sections want_index want_name rest (off + s.bytes.length) (off : Int)
        (hdr_index s.hdr : Int)
    else (off : Int)

/-- The checks `cal_read_block` makes once the scanner has chosen a header, on the header
bytes `hdr` and the bytes `payload` that follow it. -/
def read_checks (malloc : Nat → Bool) (flags : Nat) (hdr payload : List Nat) : ReadExit :=
  if flags ≠ 0 ∧ hdr_flags hdr ≠ flags then .flags_mismatch
  else if crc32 0 (hdr.take 32) ≠ hdr_hdrsum hdr then .hdrsum_invalid
  else if crc32 0 payload ≠ hdr_datasum hdr then .datasum_invalid
  else if ¬ malloc payload.length then .no_memory
  else .ok payload payload.length

/-- The conditions under which the loop body records the cursor as a candidate: a header
lies at the cursor, its payload fits in the bytes that remain, and its name is the wanted
one. -/
def Accepted (data : List Nat) (want_name : Option (List Nat)) (s : ScanState) : Prop :=
  HDR_SIZE ≤ s.count ∧ hdr_magic (data.drop s.offset) = HDR_MAGIC
    ∧ hdr_length (data.drop s.offset) ≤ s.count - HDR_SIZE
    ∧ ∀ X, want_name = some X → sectname (data.drop s.offset) = cstr X

/-- A value of `found_offset` that points to a header inside the first `n` bytes, with its
payload inside them too and with the wanted name. -/
def GoodOffset (data : List Nat) (n : Nat) (want_name : Option (List Nat)) (r : Int) : Prop :=
  ∃ o : Nat, r = (o : Int) ∧ o + HDR_SIZE + hdr_length (data.drop o) ≤ n
    ∧ hdr_magic (data.drop o) = HDR_MAGIC
    ∧ ∀ X, want_name = some X → sectname (data.drop o) = cstr X

/-- One bit of polynomial division: shift right, and subtract `poly` when a one was shifted
out. The inner loop of `crc32` does this to `crc ^ value`. -/
def crc_shift (c : Nat) : Nat := (c >>> 1) ^^^ (if c % 2 = 1 then poly else 0)

/-- The variables `t` are those of the loop of `find_section` at the start of some pass,
when the loop was entered with the variables `s`. -/
inductive Reaches (data : List Nat) (want_index : Int) (want_name : Option (List Nat))
    (s : ScanState) : ScanState → Prop where
  | start : Reaches data want_index want_name s s
  | pass (t u : ScanState) : Reaches data want_index want_name s t →
      find_section_body data want_index want_name t = .next u →
      Reaches data want_index want_name s u

/-- The variables with which `find_section(start, count, ...)` enters its loop. -/
def scan_start (count : Nat) : ScanState :=
  { count := count, offset := 0, found_offset := -1, previous_index := -1 }

/-- One bit of the checksum as the specification words it, on the pair (running checksum,
remaining byte value): compare the low bit of the running checksum against the low bit of
the remaining byte value; if they differ, shift the checksum right by one bit and XOR it
with the polynomial `0xEDB88320`; if they match, just shift the checksum right by one bit;
then shift the remaining byte value right by one bit. -/
def spec_bit (st : Nat × Nat) : Nat × Nat :=
  (if st.1 % 2 ≠ st.2 % 2 then (st.1 / 2) ^^^ 0xEDB88320 else st.1 / 2, st.2 / 2)

/-- One input byte of the checksum of the specification: its 8 bits, from the least
significant to the most significant. -/
def spec_byte (c b : Nat) : Nat := (spec_bit^[8] (c, b)).1

/-- The checksum of the specification, `checksum(seed, bytes)`: every input byte in turn. -/
def spec_checksum (seed : Nat) (bytes : List Nat) : Nat := bytes.foldl spec_byte seed

/-- One step of the standard reflected CRC-32, in 32-bit arithmetic: shift right, and XOR
with `0xEDB88320` when the value was odd. -/
def reflected_step (c : Nat) : Nat :=
  ((c >>> 1) ^^^ (if c % 2 = 1 then 0xEDB88320 else 0)) % 2 ^ 32

/-- The standard reflected CRC-32 byte update without initial or final inversion, in 32-bit
arithmetic: the left fold over the bytes of `c ↦ step^8 (c XOR b)`. -/
def crc32_reflected (seed : Nat) (bytes : List Nat) : Nat :=
  bytes.foldl (fun c b => reflected_step^[8] ((c ^^^ b) % 2 ^ 32)) seed

/-- The result of a scan of `data + k`, seen as an offset into `data`: `-1` stays `-1`, an
offset moves up by `k`. -/
def shift_offset (k : Nat) (r : Int) : Int := if r = -1 then -1 else (k : Int) + r

/-- The number of passes through the loop body that `find_section` makes when its loop is
entered with the variables `s`, the pass that leaves the loop included. -/
def find_section_passes (data : List Nat) (want_index : Int) (want_name : Option (List Nat))
    (s : ScanState) : Nat :=
  match h : find_section_body data want_index want_name s with
  | .ret _ => 1
  | .next t => find_section_passes data want_index want_name t + 1
termination_by s.count
decreasing_by
  unfold find_section_body at h
  simp only [HDR_SIZE] at h
  split_ifs at h <;> injection h with h <;> subst h <;> simp <;> omega

/-! ## Sample sections

Sections used to instantiate the theorems below. The name `X` is the byte 88, the name `Y`
the byte 89. -/

/-- Name `X`, type 1, index 0, flags 0, payload `1 2 3`, both checksums right. -/
def secX0 : Sect :=
  ⟨[67, 111, 110, 70, 1, 0, 0, 0, 88, 0, 0, 0, 0, 0, 0, 0, 0, 0, 0, 0, 0, 0, 0, 0,
    3, 0, 0, 0, 15, 89, 253, 170, 146, 236, 4, 236], [1, 2, 3]⟩

/-- Name `X`, type 1, index 1, flags 0, payload `4 5`, both checksums right. -/
def secX1 : Sect :=
  ⟨[67, 111, 110, 70, 1, 1, 0, 0, 88, 0, 0, 0, 0, 0, 0, 0, 0, 0, 0, 0, 0, 0, 0, 0,
    2, 0, 0, 0, 139, 49, 6, 20, 68, 234, 76, 177], [4, 5]⟩

/-- Name `X`, type 1, index 2, flags 0, payload `9`, both checksums right. -/
def secX2 : Sect :=
  ⟨[67, 111, 110, 70, 1, 2, 0, 0, 88, 0, 0, 0, 0, 0, 0, 0, 0, 0, 0, 0, 0, 0, 0, 0,
    1, 0, 0, 0, 164, 184, 220, 121, 115, 111, 54, 210], [9]⟩

/-- Name `Y`, type 2, index 7, flags 0, empty payload, both checksums right. -/
def secY : Sect :=
  ⟨[67, 111, 110, 70, 2, 7, 0, 0, 89, 0, 0, 0, 0, 0, 0, 0, 0, 0, 0, 0, 0, 0, 0, 0,
    0, 0, 0, 0, 0, 0, 0, 0, 152, 31, 186, 159], []⟩

/-- Name `X`, type 5, index 3, flags 0x1234, payload `7 7`, both checksums right. -/
def secXF : Sect :=
  ⟨[67, 111, 110, 70, 5, 3, 52, 18, 88, 0, 0, 0, 0, 0, 0, 0, 0, 0, 0, 0, 0, 0, 0, 0,
    2, 0, 0, 0, 100, 3, 37, 209, 88, 117, 181, 81], [7, 7]⟩

/-- Name `X`, index 5, a length field of 100 and no payload bytes: a header whose payload
overruns any buffer with fewer than 100 bytes after it. -/
def hdrOverrun : List Nat :=
  [67, 111, 110, 70, 1, 5, 0, 0, 88, 0, 0, 0, 0, 0, 0, 0, 0, 0, 0, 0, 0, 0, 0, 0,
   100, 0, 0, 0, 0, 0, 0, 0, 91, 229, 248, 149]

/-- Name `X`, index 5, flags 7, payload `1`, both checksums right. -/
def secXflags7 : Sect :=
  ⟨[67, 111, 110, 70, 1, 5, 7, 0, 88, 0, 0, 0, 0, 0, 0, 0, 0, 0, 0, 0, 0, 0, 0, 0,
    1, 0, 0, 0, 150, 48, 7, 119, 18, 25, 80, 232], [1]⟩

/-- Name `X`, index 5, flags 0, payload `1`, a right `hdrsum` and a wrong `datasum`. -/
def secXbadData : Sect :=
  ⟨[67, 111, 110, 70, 1, 5, 0, 0, 88, 0, 0, 0, 0, 0, 0, 0, 0, 0, 0, 0, 0, 0, 0, 0,
    1, 0, 0, 0, 151, 48, 7, 119, 81, 5, 47, 136], [1]⟩

/-- Name `X`, index 5, flags 0, payload `1`, a right `datasum` and a wrong `hdrsum`. -/
def secXbadHdr : Sect :=
  ⟨[67, 111, 110, 70, 1, 5, 0, 0, 88, 0, 0, 0, 0, 0, 0, 0, 0, 0, 0, 0, 0, 0, 0, 0,
    1, 0, 0, 0, 150, 48, 7, 119, 53, 98, 147, 48], [1]⟩

/-- Name `X`, index 0, both checksums right; its payload is the 38 bytes of the valid
section `secX1`. -/
def secXouter : Sect :=
  ⟨[67, 111, 110, 70, 1, 0, 0, 0, 88, 0, 0, 0, 0, 0, 0, 0, 0, 0, 0, 0, 0, 0, 0, 0,
    38, 0, 0, 0, 139, 49, 6, 20, 169, 157, 252, 162],
   [67, 111, 110, 70, 1, 1, 0, 0, 88, 0, 0, 0, 0, 0, 0, 0, 0, 0, 0, 0, 0, 0, 0, 0,
    2, 0, 0, 0, 139, 49, 6, 20, 68, 234, 76, 177, 4, 5]⟩

/-- The name field is the 16 bytes `A` .. `P`, without a NUL; index 0, empty payload, both
checksums right. -/
def secName16 : Sect :=
  ⟨[67, 111, 110, 70, 1, 0, 0, 0, 65, 66, 67, 68, 69, 70, 71, 72, 73, 74, 75, 76, 77, 78, 79, 80,
    0, 0, 0, 0, 0, 0, 0, 0, 93, 84, 160, 113], []⟩

/-- Name `X`, index 0, length 0, `datasum` 0 and the right `hdrsum`: a section with an
empty payload. -/
def secXempty : Sect :=
  ⟨[67, 111, 110, 70, 1, 0, 0, 0, 88, 0, 0, 0, 0, 0, 0, 0, 0, 0, 0, 0, 0, 0, 0, 0,
    0, 0, 0, 0, 0, 0, 0, 0, 30, 59, 148, 206], []⟩

/-- The header of `secXouter` in front of a payload of 38 zero bytes. -/
def secXouterBlank : Sect := ⟨secXouter.hdr, List.replicate 38 0⟩

/-! # Theorems -/

/-! ## Basic facts -/

/-- Every pass that does not leave the loop strictly decreases `count`. -/
theorem find_section_body_decreases (data : List Nat) (want_index : Int)
    (want_name : Option (List Nat)) (s t : ScanState)
    (h : find_section_body data want_index want_name s = .next t) : t.count < s.count := by
  unfold find_section_body at h
  simp only [HDR_SIZE] at h
  split_ifs at h <;> injection h with h <;> subst h <;> simp <;> omega

theorem find_section_loop_eq_fuel (data : List Nat) (want_index : Int)
    (want_name : Option (List Nat)) (fuel : Nat) :
    ∀ s : ScanState, s.count < fuel →
      find_section_loop data want_index want_name s
        = find_section_fuel data want_index want_name fuel s := by
  induction fuel with
  | zero => intro s h; omega
  | succ n ih =>
    intro s h
    rw [find_section_loop, find_section_fuel]
    cases hb : find_section_body data want_index want_name s with
    | ret r => rfl
    | next t =>
      have := find_section_body_decreases data want_index want_name s t hb
      exact ih t (by omega)

theorem find_section_eq_fuel (data : List Nat) (count : Nat) (want_index : Int)
    (want_name : Option (List Nat)) :
    find_section data count want_index want_name
      = find_section_fuel data want_index want_name (count + 1)
          { count := count, offset := 0, found_offset := -1, previous_index := -1 } :=
  find_section_loop_eq_fuel _ _ _ _ _ (by simp)

theorem find_section_loop_ret (data : List Nat) (want_index : Int)
    (want_name : Option (List Nat)) (s : ScanState) (r : Int)
    (h : find_section_body data want_index want_name s = .ret r) :
    find_section_loop data want_index want_name s = r := by
  rw [find_section_loop]; split
  · rename_i r2 h2; rw [h] at h2; cases h2; rfl
  · rename_i t h2; rw [h] at h2; cases h2

theorem find_section_loop_next (data : List Nat) (want_index : Int)
    (want_name : Option (List Nat)) (s t : ScanState)
    (h : find_section_body data want_index want_name s = .next t) :
    find_section_loop data want_index want_name s
      = find_section_loop data want_index want_name t := by
  rw [find_section_loop]; split
  · rename_i r2 h2; rw [h] at h2; cases h2
  · rename_i t2 h2; rw [h] at h2; cases h2; rfl

/-! ### Header fields of a header followed by other bytes -/

theorem le32_append (p q : List Nat) (h : 4 ≤ p.length) : le32 (p ++ q) = le32 p := by
  unfold le32
  rw [List.getD_append _ _ _ _ (by omega), List.getD_append _ _ _ _ (by omega),
    List.getD_append _ _ _ _ (by omega), List.getD_append _ _ _ _ (by omega)]

theorem hdr_magic_append (hdr rest : List Nat) (hlen : hdr.length = HDR_SIZE) :
    hdr_magic (hdr ++ rest) = hdr_magic hdr := by
  unfold hdr_magic; unfold HDR_SIZE at hlen
  exact List.take_append_of_le_length (by omega)

theorem hdr_type_append (hdr rest : List Nat) (hlen : hdr.length = HDR_SIZE) :
    hdr_type (hdr ++ rest) = hdr_type hdr := by
  unfold hdr_type; unfold HDR_SIZE at hlen
  exact List.getD_append _ _ _ _ (by omega)

theorem hdr_index_append (hdr rest : List Nat) (hlen : hdr.length = HDR_SIZE) :
    hdr_index (hdr ++ rest) = hdr_index hdr := by
  unfold hdr_index; unfold HDR_SIZE at hlen
  exact List.getD_append _ _ _ _ (by omega)

theorem hdr_flags_append (hdr rest : List Nat) (hlen : hdr.length = HDR_SIZE) :
    hdr_flags (hdr ++ rest) = hdr_flags hdr := by
  unfold hdr_flags le16; unfold HDR_SIZE at hlen
  rw [List.drop_append_of_le_length (by omega),
    List.getD_append _ _ _ _ (by simp; omega), List.getD_append _ _ _ _ (by simp; omega)]

theorem hdr_name_append (hdr rest : List Nat) (hlen : hdr.length = HDR_SIZE) :
    hdr_name (hdr ++ rest) = hdr_name hdr := by
  unfold hdr_name; unfold HDR_SIZE at hlen
  rw [List.drop_append_of_le_length (by omega),
    List.take_append_of_le_length (by simp; omega)]

theorem sectname_append (hdr rest : List Nat) (hlen : hdr.length = HDR_SIZE) :
    sectname (hdr ++ rest) = sectname hdr := by
  unfold sectname; rw [hdr_name_append hdr rest hlen]

theorem hdr_length_append (hdr rest : List Nat) (hlen : hdr.length = HDR_SIZE) :
    hdr_length (hdr ++ rest) = hdr_length hdr := by
  unfold hdr_length; unfold HDR_SIZE at hlen
  rw [List.drop_append_of_le_length (by omega), le32_append _ _ (by simp; omega)]

theorem hdr_datasum_append (hdr rest : List Nat) (hlen : hdr.length = HDR_SIZE) :
    hdr_datasum (hdr ++ rest) = hdr_datasum hdr := by
  unfold hdr_datasum; unfold HDR_SIZE at hlen
  rw [List.drop_append_of_le_length (by omega), le32_append _ _ (by simp; omega)]

theorem hdr_hdrsum_append (hdr rest : List Nat) (hlen : hdr.length = HDR_SIZE) :
    hdr_hdrsum (hdr ++ rest) = hdr_hdrsum hdr := by
  unfold hdr_hdrsum; unfold HDR_SIZE at hlen
  rw [List.drop_append_of_le_length (by omega), le32_append _ _ (by simp; omega)]

/-! ### The scanner on an image made of sections -/

theorem image_of_nil : image_of [] = [] := rfl

theorem image_of_cons (s : Sect) (rest : List Sect) :
    image_of (s :: rest) = s.hdr ++ (s.payload ++ image_of rest) := by
  simp [image_of, Sect.bytes]

theorem image_of_append (a b : List Sect) : image_of (a ++ b) = image_of a ++ image_of b := by
  simp [image_of]

theorem Sect.bytes_length (s : Sect) (h : s.WellFormed) :
    s.bytes.length = HDR_SIZE + s.payload.length := by
  simp [Sect.bytes, h.1]

/-- One pass of the loop body with the cursor on a well-formed section. -/
theorem find_section_body_section (want_index : Int) (want_name : Option (List Nat))
    (pre : List Nat) (s : Sect) (tail : List Nat) (hs : s.WellFormed) (found prev : Int) :
    find_section_body (pre ++ (s.hdr ++ (s.payload ++ tail))) want_index want_name
        { count := (s.hdr ++ (s.payload ++ tail)).length, offset := pre.length,
          found_offset := found, previous_index := prev }
      = if sel_skip want_index want_name prev s.hdr then
          .next { count := tail.length, offset := pre.length + s.bytes.length,
                  found_offset := found, previous_index := prev }
        else if want_index = INDEX_LAST then
          .next { count := tail.length, offset := pre.length + s.bytes.length,
                  found_offset := (pre.length : Int), previous_index := (hdr_index s.hdr : Int) }
        else .ret (pre.length : Int) := by
  obtain ⟨hlen, hmagic, hplen⟩ := hs
  have hcount : (s.hdr ++ (s.payload ++ tail)).length
      = HDR_SIZE + (s.payload.length + tail.length) := by simp [hlen]
  have hbytes : s.bytes.length = HDR_SIZE + s.payload.length := by simp [Sect.bytes, hlen]
  unfold find_section_body
  simp only [List.drop_left, hcount, hdr_length_append s.hdr _ hlen,
    hdr_index_append s.hdr _ hlen, sectname_append s.hdr _ hlen, is_header,
    hdr_magic_append s.hdr _ hlen, hmagic, hplen, hbytes, sel_skip]
  have h1 : ¬ (HDR_SIZE + (s.payload.length + tail.length) < HDR_SIZE) := by omega
  have h2 : ¬ (HDR_SIZE + (s.payload.length + tail.length) - HDR_SIZE < s.payload.length) := by
    omega
  have h3 : HDR_SIZE + (s.payload.length + tail.length) - (HDR_SIZE + s.payload.length)
      = tail.length := by omega
  simp only [h1, h2, h3, if_false, ne_eq, not_true_eq_false, Bool.not_false, not_false_eq_true,
    Bool.or_eq_true]
  split_ifs <;> simp_all <;> (exfalso; omega)

/-- On an image made of well-formed sections the loop computes `scan_sections`. -/
theorem find_section_loop_sections (want_index : Int) (want_name : Option (List Nat))
    (secs : List Sect) (hwf : ∀ s ∈ secs, s.WellFormed) :
    ∀ (pre : List Nat) (found prev : Int),
      find_section_loop (pre ++ image_of secs) want_index want_name
          { count := (image_of secs).length, offset := pre.length,
            found_offset := found, previous_index := prev }
        = scan_sections want_index want_name secs pre.length found prev := by
  induction secs with
  | nil =>
    intro pre found prev
    apply find_section_loop_ret
    simp [find_section_body, image_of_nil, HDR_SIZE, scan_sections]
  | cons s rest ih =>
    intro pre found prev
    have hs : s.WellFormed := hwf s (by simp)
    have hrest : ∀ t ∈ rest, t.WellFormed := fun t ht => hwf t (by simp [ht])
    have hbody := find_section_body_section want_index want_name pre s (image_of rest) hs
      found prev
    have hdata : pre ++ image_of (s :: rest) = (pre ++ s.bytes) ++ image_of rest := by
      simp [image_of_cons, Sect.bytes]
    have hoff : pre.length + s.bytes.length = (pre ++ s.bytes).length := by simp
    rw [image_of_cons]
    unfold scan_sections
    by_cases hskip : sel_skip want_index want_name prev s.hdr = true
    · rw [if_pos hskip] at hbody ⊢
      rw [find_section_loop_next _ _ _ _ _ hbody, hoff, ← ih hrest]
      simp [Sect.bytes]
    · rw [if_neg hskip] at hbody ⊢
      by_cases hlast : want_index = INDEX_LAST
      · rw [if_pos hlast] at hbody ⊢
        rw [find_section_loop_next _ _ _ _ _ hbody, hoff, ← ih hrest]
        simp [Sect.bytes]
      · rw [if_neg hlast] at hbody ⊢
        exact find_section_loop_ret _ _ _ _ _ hbody

/-- The call `find_section(image, size, want_index, want_name)` on an image made of
well-formed sections. -/
theorem find_section_sections (want_index : Int) (want_name : Option (List Nat))
    (secs : List Sect) (hwf : ∀ s ∈ secs, s.WellFormed) :
    find_section (image_of secs) (image_of secs).length want_index want_name
      = scan_sections want_index want_name secs 0 (-1) (-1) := by
  have := find_section_loop_sections want_index want_name secs hwf [] (-1) (-1)
  simpa [find_section] using this

/-! ### Latest selection on an image made of sections -/

theorem cstr_idem (l : List Nat) : cstr (cstr l) = cstr l := by
  unfold cstr
  induction l with
  | nil => rfl
  | cons a l ih =>
    by_cases h : (a != 0) = true
    · simp only [List.takeWhile_cons, h, if_true, ih]
    · simp only [List.takeWhile_cons, h, if_false, List.takeWhile_nil, Bool.false_eq_true]

theorem cstr_sectname (hdr : List Nat) : cstr (sectname hdr) = sectname hdr := by
  unfold sectname; exact cstr_idem _

/-- A name carried by some header is a C string: `strcmp` sees all of it. -/
theorem cstr_of_named (s : Sect) (X : List Nat) (h : s.Named X) : cstr X = X := by
  unfold Sect.Named at h; rw [← h]; exact cstr_sectname _

theorem sel_skip_last (X : List Nat) (prev : Int) (hdr : List Nat) :
    sel_skip INDEX_LAST (some X) prev hdr = true
      ↔ ((hdr_index hdr : Int) ≤ prev ∨ sectname hdr ≠ cstr X) := by
  simp [sel_skip]

/-- Sections that cannot be accepted leave the candidate as it is. -/
theorem scan_sections_last_none (X : List Nat) (secs : List Sect) :
    ∀ (off : Nat) (found prev : Int),
      (∀ s ∈ secs, sectname s.hdr = cstr X → (hdr_index s.hdr : Int) ≤ prev) →
      scan_sections INDEX_LAST (some X) secs off found prev = found := by
  induction secs with
  | nil => intro off found prev _; rfl
  | cons s rest ih =>
    intro off found prev h
    have hskip : sel_skip INDEX_LAST (some X) prev s.hdr = true := by
      rw [sel_skip_last]
      by_cases hn : sectname s.hdr = cstr X
      · exact Or.inl (h s (by simp) hn)
      · exact Or.inr hn
    unfold scan_sections
    rw [if_pos hskip]
    exact ih _ _ _ (fun t ht => h t (by simp [ht]))

/-- Latest selection ends on the first section that carries the largest index among the
sections with the wanted name. -/
theorem scan_sections_last_first_max (X : List Nat) (t : Sect) (after : List Sect)
    (ht : sectname t.hdr = cstr X)
    (hafter : ∀ s ∈ after, sectname s.hdr = cstr X → hdr_index s.hdr ≤ hdr_index t.hdr)
    (before : List Sect) :
    ∀ (off : Nat) (found prev : Int),
      prev < (hdr_index t.hdr : Int) →
      (∀ s ∈ before, sectname s.hdr = cstr X → hdr_index s.hdr < hdr_index t.hdr) →
      scan_sections INDEX_LAST (some X) (before ++ t :: after) off found prev
        = ((off + (image_of before).length : Nat) : Int) := by
  induction before with
  | nil =>
    intro off found prev hprev _
    have hacc : ¬ sel_skip INDEX_LAST (some X) prev t.hdr = true := by
      rw [sel_skip_last]; push_neg; exact ⟨hprev, ht⟩
    simp only [List.nil_append, image_of_nil, List.length_nil, Nat.add_zero]
    unfold scan_sections
    rw [if_neg hacc, if_pos rfl]
    exact scan_sections_last_none X after _ _ _
      (fun s hs hn => by exact_mod_cast hafter s hs hn)
  | cons b rest ih =>
    intro off found prev hprev hbefore
    have hrest : ∀ s ∈ rest, sectname s.hdr = cstr X → hdr_index s.hdr < hdr_index t.hdr :=
      fun s hs => hbefore s (by simp [hs])
    have hlen : off + (image_of (b :: rest)).length
        = off + b.bytes.length + (image_of rest).length := by
      simp [image_of_cons, Sect.bytes]; omega
    rw [hlen, List.cons_append]
    unfold scan_sections
    by_cases hskip : sel_skip INDEX_LAST (some X) prev b.hdr = true
    · rw [if_pos hskip]
      exact ih _ _ _ hprev hrest
    · rw [if_neg hskip, if_pos rfl]
      rw [sel_skip_last] at hskip; push_neg at hskip
      have hb := hbefore b (by simp) hskip.2
      exact ih _ _ _ (by exact_mod_cast hb) hrest

/-- Among sections of which one has the wanted name, there is a first one with the largest
index. -/
theorem exists_first_max (P : Sect → Prop) (secs : List Sect) (h : ∃ s ∈ secs, P s) :
    ∃ before t after, secs = before ++ t :: after ∧ P t
      ∧ (∀ s ∈ before, P s → hdr_index s.hdr < hdr_index t.hdr)
      ∧ (∀ s ∈ after, P s → hdr_index s.hdr ≤ hdr_index t.hdr) := by
  induction secs with
  | nil => obtain ⟨s, hs, _⟩ := h; simp at hs
  | cons a rest ih =>
    by_cases hr : ∃ s ∈ rest, P s
    · obtain ⟨before, t, after, hdec, hPt, hb, ha⟩ := ih hr
      by_cases hcase : P a ∧ hdr_index t.hdr ≤ hdr_index a.hdr
      · refine ⟨[], a, rest, rfl, hcase.1, by simp, ?_⟩
        intro s hs hPs
        rw [hdec] at hs
        rcases List.mem_append.1 hs with hs | hs
        · have := hb s hs hPs; omega
        · rcases List.mem_cons.1 hs with hs | hs
          · subst hs; exact hcase.2
          · have := ha s hs hPs; omega
      · refine ⟨a :: before, t, after, by simp [hdec], hPt, ?_, ha⟩
        intro s hs hPs
        rcases List.mem_cons.1 hs with hs | hs
        · subst hs
          by_contra hge
          exact hcase ⟨hPs, by omega⟩
        · exact hb s hs hPs
    · obtain ⟨s, hs, hPs⟩ := h
      rcases List.mem_cons.1 hs with hs | hs
      · subst hs
        refine ⟨[], s, rest, rfl, hPs, by simp, ?_⟩
        intro u hu hPu
        exact absurd ⟨u, hu, hPu⟩ hr
      · exact absurd ⟨s, hs, hPs⟩ hr

/-- Latest selection on an image made of well-formed sections returns the offset of the
first section that carries the largest index among the sections named `X`. -/
theorem find_section_last_sections (X : List Nat) (before after : List Sect) (t : Sect)
    (hwf : ∀ s ∈ before ++ t :: after, s.WellFormed)
    (ht : sectname t.hdr = cstr X)
    (hbefore : ∀ s ∈ before, sectname s.hdr = cstr X → hdr_index s.hdr < hdr_index t.hdr)
    (hafter : ∀ s ∈ after, sectname s.hdr = cstr X → hdr_index s.hdr ≤ hdr_index t.hdr) :
    find_section (image_of (before ++ t :: after)) (image_of (before ++ t :: after)).length
        INDEX_LAST (some X)
      = ((image_of before).length : Int) := by
  rw [find_section_sections _ _ _ hwf,
    scan_sections_last_first_max X t after ht hafter before 0 (-1) (-1)
      (by have := Int.ofNat_nonneg (hdr_index t.hdr); omega) hbefore]
  simp

/-! ### The block reader on an image made of sections -/

/-- When the scanner returns the offset of a well-formed section `t` of the image,
`cal_read_block` makes its checks on the header and payload of `t`. -/
theorem cal_read_block_exit_at (malloc : Nat → Bool) (name : Option (List Nat)) (flags : Nat)
    (pre tail : List Nat) (t : Sect) (ht : t.WellFormed)
    (hfind : find_section (pre ++ (t.hdr ++ (t.payload ++ tail)))
        (pre ++ (t.hdr ++ (t.payload ++ tail))).length INDEX_LAST name = (pre.length : Int)) :
    cal_read_block_exit malloc (pre ++ (t.hdr ++ (t.payload ++ tail))) name flags
      = read_checks malloc flags t.hdr t.payload := by
  obtain ⟨hlen, _, hplen⟩ := ht
  have hnn : ¬ ((pre.length : Int) < 0) := by omega
  have hdrop : List.drop (pre.length + HDR_SIZE) (pre ++ (t.hdr ++ (t.payload ++ tail)))
      = t.payload ++ tail := by
    rw [List.drop_append, ← hlen, List.drop_left]
  have htake : List.take (HDR_SIZE - 4) (t.hdr ++ (t.payload ++ tail)) = List.take 32 t.hdr := by
    unfold HDR_SIZE at hlen ⊢
    exact List.take_append_of_le_length (by omega)
  unfold cal_read_block_exit read_checks
  simp only [hfind, hnn, if_false, Int.toNat_ofNat, List.drop_left, hdrop,
    hdr_flags_append t.hdr _ hlen, hdr_hdrsum_append t.hdr _ hlen,
    hdr_length_append t.hdr _ hlen, hdr_datasum_append t.hdr _ hlen, hplen, List.take_left,
    htake]

/-- The block reader on an image made of well-formed sections, in terms of the first
section that carries the largest index among the sections named `X`. -/
theorem cal_read_block_exit_sections (malloc : Nat → Bool) (X : List Nat) (flags : Nat)
    (before after : List Sect) (t : Sect)
    (hwf : ∀ s ∈ before ++ t :: after, s.WellFormed)
    (ht : sectname t.hdr = cstr X)
    (hbefore : ∀ s ∈ before, sectname s.hdr = cstr X → hdr_index s.hdr < hdr_index t.hdr)
    (hafter : ∀ s ∈ after, sectname s.hdr = cstr X → hdr_index s.hdr ≤ hdr_index t.hdr) :
    cal_read_block_exit malloc (image_of (before ++ t :: after)) (some X) flags
      = read_checks malloc flags t.hdr t.payload := by
  have hfind := find_section_last_sections X before after t hwf ht hbefore hafter
  have himg : image_of (before ++ t :: after)
      = image_of before ++ (t.hdr ++ (t.payload ++ image_of after)) := by
    rw [image_of_append, image_of_cons]
  rw [himg] at hfind ⊢
  exact cal_read_block_exit_at malloc (some X) flags _ _ t (hwf t (by simp)) hfind

/-! ## Reading a uniquely named section (C1) -/

/-- C1: in an image that is a back-to-back concatenation of well-formed sections of which
exactly one, `t`, has the name `X`, and `t` has the header and payload checksums that
`crc32` gives with seed 0, `cal_read_block(image, X, flags = 0)` returns 0 and hands back
exactly the payload of `t`, with `len` equal to the length field of `t`, whatever the
type, index and flags of `t` are (the allocation of the block is assumed to succeed). -/
theorem cal_read_block_unique_section (malloc : Nat → Bool) (X : List Nat)
    (before after : List Sect) (t : Sect)
    (hwf : ∀ s ∈ before ++ t :: after, s.WellFormed)
    (ht : t.Named X)
    (huniq : ∀ s ∈ before ++ after, ¬ s.Named X)
    (hsum : t.Checksummed)
    (hmalloc : malloc (hdr_length t.hdr) = true) :
    cal_read_block malloc (image_of (before ++ t :: after)) (some X) 0
      = (0, some (t.payload, hdr_length t.hdr)) := by
  have hX : cstr X = X := cstr_of_named t X ht
  have hplen : hdr_length t.hdr = t.payload.length := (hwf t (by simp)).2.2
  have hexit := cal_read_block_exit_sections malloc X 0 before after t hwf
    (by rw [hX]; exact ht)
    (fun s hs hn => absurd (by rw [hX] at hn; exact hn) (huniq s (by simp [hs])))
    (fun s hs hn => absurd (by rw [hX] at hn; exact hn) (huniq s (by simp [hs])))
  rw [hplen] at hmalloc
  unfold cal_read_block
  rw [hexit]
  unfold read_checks
  simp [← hsum.1, ← hsum.2, hmalloc, ReadExit.value, ReadExit.block, hplen]

set_option maxRecDepth 100000 in
/-- Instance of C1: the section `secXF` between two sections named `Y`. -/
theorem cal_read_block_unique_section_witness :
    cal_read_block (fun _ => true) (image_of ([secY] ++ secXF :: [secY])) (some [88]) 0
      = (0, some ([7, 7], 2)) :=
  cal_read_block_unique_section (fun _ => true) [88] [secY] [secY] secXF
    (by decide) (by decide) (by decide) (by decide) rfl

/-! ## Latest selection (C2, C3) -/

/-- C2: on an image that is a back-to-back concatenation of well-formed sections, for a name
`X` carried by at least one of them, `find_section(image, size, INDEX_LAST, X)` returns the
offset of a section named `X` whose index is the largest index of the sections named `X`,
wherever that section lies in the image. -/
theorem find_section_last_is_maximum (secs : List Sect) (X : List Nat)
    (hwf : ∀ s ∈ secs, s.WellFormed) (hX : ∃ s ∈ secs, s.Named X) :
    ∃ before t after, secs = before ++ t :: after
      ∧ find_section (image_of secs) (image_of secs).length INDEX_LAST (some X)
          = ((image_of before).length : Int)
      ∧ t.Named X
      ∧ ∀ s ∈ secs, s.Named X → hdr_index s.hdr ≤ hdr_index t.hdr := by
  obtain ⟨before, t, after, hdec, ht, hb, ha⟩ := exists_first_max (fun s => s.Named X) secs hX
  have hcX : cstr X = X := cstr_of_named t X ht
  subst hdec
  refine ⟨before, t, after, rfl, ?_, ht, ?_⟩
  · exact find_section_last_sections X before after t hwf (by rw [hcX]; exact ht)
      (fun s hs hn => hb s hs (by rw [hcX] at hn; exact hn))
      (fun s hs hn => ha s hs (by rw [hcX] at hn; exact hn))
  · intro s hs hn
    rcases List.mem_append.1 hs with hs | hs
    · exact Nat.le_of_lt (hb s hs hn)
    · rcases List.mem_cons.1 hs with hs | hs
      · subst hs; exact Nat.le_refl _
      · exact ha s hs hn

/-- Instance of C2: sections named `X` with indices 0, 1, 2 separated by sections named `Y`. -/
theorem find_section_last_is_maximum_witness :
    ∃ before t after, [secX0, secY, secX1, secY, secX2] = before ++ t :: after
      ∧ find_section (image_of [secX0, secY, secX1, secY, secX2])
          (image_of [secX0, secY, secX1, secY, secX2]).length INDEX_LAST (some [88])
          = ((image_of before).length : Int)
      ∧ t.Named [88]
      ∧ ∀ s ∈ [secX0, secY, secX1, secY, secX2], s.Named [88] → hdr_index s.hdr ≤ hdr_index t.hdr :=
  find_section_last_is_maximum [secX0, secY, secX1, secY, secX2] [88] (by decide) (by decide)

/-- C3: in Latest selection a section named `X` replaces the accepted one only when its
index is strictly larger. On an image that is a back-to-back concatenation of well-formed
sections the returned offset is that of the first section, in scan order, that carries the
largest index among the sections named `X`: every section named `X` before it has a
strictly smaller index, and no section named `X` after it has a larger one. Sections with
other names, whatever their index, play no part. -/
theorem find_section_last_is_first_maximum (X : List Nat) (before after : List Sect) (t : Sect)
    (hwf : ∀ s ∈ before ++ t :: after, s.WellFormed)
    (ht : t.Named X)
    (hbefore : ∀ s ∈ before, s.Named X → hdr_index s.hdr < hdr_index t.hdr)
    (hafter : ∀ s ∈ after, s.Named X → hdr_index s.hdr ≤ hdr_index t.hdr) :
    find_section (image_of (before ++ t :: after)) (image_of (before ++ t :: after)).length
        INDEX_LAST (some X)
      = ((image_of before).length : Int) := by
  have hcX : cstr X = X := cstr_of_named t X ht
  exact find_section_last_sections X before after t hwf (by rw [hcX]; exact ht)
    (fun s hs hn => hbefore s hs (by rw [hcX] at hn; exact hn))
    (fun s hs hn => hafter s hs (by rw [hcX] at hn; exact hn))

/-- Instance of C3: index 2, then index 1, then index 2 again, after a section named `Y` of
index 7; the first section of index 2, at offset 36, is selected. -/
theorem find_section_last_is_first_maximum_witness :
    find_section (image_of ([secY] ++ secX2 :: [secX1, secX2]))
        (image_of ([secY] ++ secX2 :: [secX1, secX2])).length INDEX_LAST (some [88])
      = 36 :=
  find_section_last_is_first_maximum [88] [secY] [secX1, secX2] secX2
    (by decide) (by decide) (by decide) (by decide)

/-! ## What a returned offset guarantees (C4) -/

/-- The loop body, with its two skipping tests gathered in `sel_skip`. -/
theorem find_section_body_eq (data : List Nat) (want_index : Int)
    (want_name : Option (List Nat)) (s : ScanState) :
    find_section_body data want_index want_name s
      = if s.count < HDR_SIZE then .ret s.found_offset
        else if is_header (data.drop s.offset) s.count = false then
          .next { s with count := s.count - 1, offset := s.offset + 1 }
        else if s.count - HDR_SIZE < hdr_length (data.drop s.offset) then .ret (-1)
        else if sel_skip want_index want_name s.previous_index (data.drop s.offset) then
          .next { s with count := s.count - (HDR_SIZE + hdr_length (data.drop s.offset)),
                         offset := s.offset + (HDR_SIZE + hdr_length (data.drop s.offset)) }
        else if want_index = INDEX_LAST then
          .next { count := s.count - (HDR_SIZE + hdr_length (data.drop s.offset)),
                  offset := s.offset + (HDR_SIZE + hdr_length (data.drop s.offset)),
                  found_offset := (s.offset : Int),
                  previous_index := (hdr_index (data.drop s.offset) : Int) }
        else .ret (s.offset : Int) := by
  unfold find_section_body sel_skip
  simp only [Bool.or_eq_true, Bool.not_eq_true]
  split_ifs <;> simp_all <;> omega

/-- What one pass of the loop body does to the variables. -/
theorem find_section_body_spec (data : List Nat) (want_index : Int)
    (want_name : Option (List Nat)) (s : ScanState) :
    match find_section_body data want_index want_name s with
    | .ret r => r = s.found_offset ∨ r = -1 ∨ (r = (s.offset : Int) ∧ Accepted data want_name s)
    | .next t => t.offset + t.count = s.offset + s.count
        ∧ (t.found_offset = s.found_offset
            ∨ (t.found_offset = (s.offset : Int) ∧ Accepted data want_name s)) := by
  have hsz : HDR_SIZE = 36 := rfl
  rw [find_section_body_eq]
  by_cases h1 : s.count < HDR_SIZE
  · simp [h1]
  rw [if_neg h1]
  by_cases h2 : is_header (data.drop s.offset) s.count = false
  · rw [if_pos h2]
    dsimp only
    exact ⟨by omega, Or.inl rfl⟩
  rw [if_neg h2]
  by_cases h3 : s.count - HDR_SIZE < hdr_length (data.drop s.offset)
  · simp [h3]
  rw [if_neg h3]
  by_cases h4 : sel_skip want_index want_name s.previous_index (data.drop s.offset) = true
  · rw [if_pos h4]
    dsimp only
    exact ⟨by omega, Or.inl rfl⟩
  rw [if_neg h4]
  have hacc : Accepted data want_name s := by
    refine ⟨by omega, ?_, by omega, ?_⟩
    · unfold is_header at h2
      by_contra hne
      simp [h1, hne] at h2
    · intro X hX
      subst hX
      simp only [sel_skip, Bool.or_eq_true, not_or] at h4
      simpa using h4.2
  by_cases h5 : want_index = INDEX_LAST
  · rw [if_pos h5]
    dsimp only
    exact ⟨by omega, Or.inr ⟨rfl, hacc⟩⟩
  · rw [if_neg h5]
    exact Or.inr (Or.inr ⟨rfl, hacc⟩)

theorem GoodOffset_of_accepted (data : List Nat) (n : Nat) (want_name : Option (List Nat))
    (s : ScanState) (hinv : s.offset + s.count = n) (h : Accepted data want_name s) :
    GoodOffset data n want_name (s.offset : Int) := by
  obtain ⟨h1, h2, h3, h4⟩ := h
  exact ⟨s.offset, rfl, by omega, h2, h4⟩

/-- The loop returns `-1` or an offset that points to a header inside the buffer, with its
payload inside the buffer and with the wanted name. -/
theorem find_section_loop_good (data : List Nat) (n : Nat) (want_index : Int)
    (want_name : Option (List Nat)) :
    ∀ (c : Nat) (s : ScanState), s.count = c → s.offset + s.count = n →
      (s.found_offset = -1 ∨ GoodOffset data n want_name s.found_offset) →
      (find_section_loop data want_index want_name s = -1
        ∨ GoodOffset data n want_name (find_section_loop data want_index want_name s)) := by
  intro c
  induction c using Nat.strong_induction_on with
  | _ c ih =>
    intro s hc hinv hfound
    have hspec := find_section_body_spec data want_index want_name s
    cases hb : find_section_body data want_index want_name s with
    | ret r =>
      rw [find_section_loop_ret _ _ _ _ _ hb]
      rw [hb] at hspec
      rcases hspec with h | h | ⟨h, hacc⟩
      · rw [h]; exact hfound
      · exact Or.inl h
      · rw [h]; exact Or.inr (GoodOffset_of_accepted data n want_name s hinv hacc)
    | next t =>
      rw [find_section_loop_next _ _ _ _ _ hb]
      rw [hb] at hspec
      have hdec := find_section_body_decreases data want_index want_name s t hb
      refine ih t.count (by omega) t rfl (by omega) ?_
      rcases hspec.2 with h | ⟨h, hacc⟩
      · rw [h]; exact hfound
      · rw [h]; exact Or.inr (GoodOffset_of_accepted data n want_name s hinv hacc)

/-- A non-negative result of `find_section` points to a header inside the buffer, with its
payload inside the buffer and with the wanted name. -/
theorem find_section_good (data : List Nat) (n : Nat) (want_index : Int)
    (want_name : Option (List Nat)) :
    find_section data n want_index want_name = -1
      ∨ GoodOffset data n want_name (find_section data n want_index want_name) :=
  find_section_loop_good data n want_index want_name n _ rfl (by simp) (Or.inl rfl)

/-- The string `strcmp` sees in `sectname` is the name field cut at its first NUL. -/
theorem sectname_eq (hdr : List Nat) : sectname hdr = cstr (hdr_name hdr) := by
  unfold sectname cstr
  induction hdr_name hdr with
  | nil => rfl
  | cons a l ih =>
    by_cases h : (a != 0) = true
    · simp only [List.cons_append, List.takeWhile_cons, h, if_true, ih]
    · simp only [List.cons_append, List.takeWhile_cons, h, if_false, Bool.false_eq_true]

/-- A successful `cal_read_block` went through the final `return 0`. -/
theorem cal_read_block_ok (malloc : Nat → Bool) (mem : List Nat) (name : Option (List Nat))
    (flags : Nat) (B : List Nat) (L : Nat)
    (h : cal_read_block malloc mem name flags = (0, some (B, L))) :
    cal_read_block_exit malloc mem name flags = .ok B L := by
  unfold cal_read_block at h
  have h2 := congrArg Prod.snd h
  simp only at h2
  cases he : cal_read_block_exit malloc mem name flags with
  | ok ptr len =>
    rw [he] at h2
    simp only [ReadExit.block, Option.some.injEq, Prod.mk.injEq] at h2
    rw [h2.1, h2.2]
  | _ => rw [he] at h2; simp [ReadExit.block] at h2

/-- C4: `cal_read_block` hands back only verified payload bytes. Whenever it succeeds with
bytes `B` and length `L`, there is an offset `o` with `o + 36 + L` at most the image size
such that the image holds the magic at `o`, the name field of the header at `o` cut at its
first NUL is the requested name, its length field is `L`, `crc32` with seed 0 of the 32
bytes from `o` is its `hdrsum`, `crc32` with seed 0 of the `L` bytes from `o + 36` is its
`datasum`, `B` is those `L` bytes, and `flags` is 0 or equals the flags field. -/
theorem cal_read_block_verified (malloc : Nat → Bool) (mem : List Nat)
    (name : Option (List Nat)) (flags : Nat) (B : List Nat) (L : Nat)
    (h : cal_read_block malloc mem name flags = (0, some (B, L))) :
    ∃ o : Nat, o + 36 + L ≤ mem.length
      ∧ (mem.drop o).take 4 = HDR_MAGIC
      ∧ (∀ X, name = some X → cstr (hdr_name (mem.drop o)) = cstr X)
      ∧ hdr_length (mem.drop o) = L
      ∧ crc32 0 ((mem.drop o).take 32) = hdr_hdrsum (mem.drop o)
      ∧ crc32 0 ((mem.drop (o + 36)).take L) = hdr_datasum (mem.drop o)
      ∧ B = (mem.drop (o + 36)).take L
      ∧ (flags = 0 ∨ hdr_flags (mem.drop o) = flags) := by
  have hexit := cal_read_block_ok malloc mem name flags B L h
  unfold cal_read_block_exit at hexit
  simp only [HDR_SIZE] at hexit
  split_ifs at hexit with h1 h2 h3 h4 h5
  rcases find_section_good mem mem.length INDEX_LAST name with hneg | hgood
  · rw [hneg] at h1; exact absurd (by decide) h1
  · obtain ⟨o, ho, hbound, hmagic, hname⟩ := hgood
    rw [ho] at hexit h2 h3 h4 h5
    simp only [Int.toNat_ofNat] at hexit h2 h3 h4 h5
    simp only [ReadExit.ok.injEq] at hexit
    obtain ⟨hB, hL⟩ := hexit
    rw [hL] at hB h4 hbound
    refine ⟨o, by unfold HDR_SIZE at hbound; exact hbound, hmagic, ?_, hL, ?_, ?_, hB.symm, ?_⟩
    · intro X hX; rw [← sectname_eq]; exact hname X hX
    · exact not_not.1 h3
    · exact not_not.1 h4
    · by_cases hf : flags = 0
      · exact Or.inl hf
      · right
        by_contra hne
        exact h2 ⟨hf, hne⟩

set_option maxRecDepth 100000 in
/-- Instance of C4: reading `X` from the image made of `secX0`, `secY` and `secX1`. -/
theorem cal_read_block_verified_witness :
    ∃ o : Nat, o + 36 + 2 ≤ (image_of [secX0, secY, secX1]).length
      ∧ ((image_of [secX0, secY, secX1]).drop o).take 4 = HDR_MAGIC
      ∧ (∀ X, some [88] = some X → cstr (hdr_name ((image_of [secX0, secY, secX1]).drop o)) = cstr X)
      ∧ hdr_length ((image_of [secX0, secY, secX1]).drop o) = 2
      ∧ crc32 0 (((image_of [secX0, secY, secX1]).drop o).take 32)
          = hdr_hdrsum ((image_of [secX0, secY, secX1]).drop o)
      ∧ crc32 0 (((image_of [secX0, secY, secX1]).drop (o + 36)).take 2)
          = hdr_datasum ((image_of [secX0, secY, secX1]).drop o)
      ∧ [4, 5] = ((image_of [secX0, secY, secX1]).drop (o + 36)).take 2
      ∧ (0 = 0 ∨ hdr_flags ((image_of [secX0, secY, secX1]).drop o) = 0) :=
  cal_read_block_verified (fun _ => true) (image_of [secX0, secY, secX1]) (some [88]) 0
    [4, 5] 2
    (by simp only [cal_read_block, cal_read_block_exit, find_section_eq_fuel]; decide)

/-! ## The checksum tells single-byte changes apart -/

theorem xor_shiftRight_one (a b : Nat) : (a ^^^ b) >>> 1 = (a >>> 1) ^^^ (b >>> 1) := by
  apply Nat.eq_of_testBit_eq; intro i
  simp [Nat.testBit_shiftRight, Nat.testBit_xor]

/-- One round of the inner loop of `crc32` is one `crc_shift` of `crc ^ value`. -/
theorem crc32_bits_round (c v : Nat) :
    (if c &&& 1 ≠ v &&& 1 then (c >>> 1) ^^^ poly else c >>> 1) ^^^ (v >>> 1)
      = crc_shift (c ^^^ v) := by
  unfold crc_shift
  rw [xor_shiftRight_one, Nat.and_one_is_mod, Nat.and_one_is_mod, Nat.xor_mod_two_eq]
  by_cases h : c % 2 = v % 2
  · have h2 : ¬ ((c + v) % 2 = 1) := by omega
    simp [h, h2]
  · have h2 : (c + v) % 2 = 1 := by omega
    simp only [ne_eq, h, not_false_eq_true, if_true, h2]
    rw [Nat.xor_assoc, Nat.xor_comm poly, ← Nat.xor_assoc]

/-- The inner loop of `crc32`, run on a value that fits in `n` bits, is `n` rounds of
`crc_shift` on `crc ^ value`. -/
theorem crc32_bits_eq (n : Nat) : ∀ (c v : Nat), v < 2 ^ n →
    crc32_bits n c v = crc_shift^[n] (c ^^^ v) := by
  induction n with
  | zero =>
    intro c v hv
    have : v = 0 := by simpa using hv
    subst this; simp [crc32_bits]
  | succ n ih =>
    intro c v hv
    have hv2 : v >>> 1 < 2 ^ n := by
      rw [Nat.shiftRight_eq_div_pow, pow_one]
      rw [pow_succ] at hv; omega
    rw [crc32_bits, ih _ _ hv2, crc32_bits_round, Function.iterate_succ_apply]

theorem poly_lt : poly < 2 ^ 32 := by decide

theorem crc_shift_lt (c : Nat) (hc : c < 2 ^ 32) : crc_shift c < 2 ^ 32 := by
  unfold crc_shift
  apply Nat.xor_lt_two_pow
  · rw [Nat.shiftRight_eq_div_pow]; omega
  · split
    · exact poly_lt
    · decide

/-- Bit 31 of `crc_shift c` tells whether `c` was odd. -/
theorem crc_shift_testBit (c : Nat) (hc : c < 2 ^ 32) :
    (crc_shift c).testBit 31 = decide (c % 2 = 1) := by
  unfold crc_shift
  have h1 : (c >>> 1).testBit 31 = false := by
    apply Nat.testBit_lt_two_pow
    rw [Nat.shiftRight_eq_div_pow]; omega
  rw [Nat.testBit_xor, h1]
  by_cases h : c % 2 = 1
  · simp only [h, if_true, decide_True]; decide
  · simp only [h, if_false, decide_False]; decide

theorem crc_shift_inj (c d : Nat) (hc : c < 2 ^ 32) (hd : d < 2 ^ 32)
    (h : crc_shift c = crc_shift d) : c = d := by
  have hbit : decide (c % 2 = 1) = decide (d % 2 = 1) := by
    rw [← crc_shift_testBit c hc, ← crc_shift_testBit d hd, h]
  have hpar : (c % 2 = 1) ↔ (d % 2 = 1) := by simpa using hbit
  have hmask : (if c % 2 = 1 then poly else 0) = (if d % 2 = 1 then poly else 0) := by
    by_cases h1 : c % 2 = 1
    · simp [h1, hpar.1 h1]
    · have h2 : ¬ d % 2 = 1 := fun h2 => h1 (hpar.2 h2)
      simp [h1, h2]
  unfold crc_shift at h
  rw [hmask] at h
  have hsh : c >>> 1 = d >>> 1 := Nat.xor_left_injective h
  rw [Nat.shiftRight_eq_div_pow, Nat.shiftRight_eq_div_pow, pow_one] at hsh
  by_cases h1 : c % 2 = 1
  · have := hpar.1 h1; omega
  · have h2 : ¬ d % 2 = 1 := fun h2 => h1 (hpar.2 h2)
    omega

theorem crc_shift_iterate_lt (n : Nat) : ∀ c, c < 2 ^ 32 → crc_shift^[n] c < 2 ^ 32 := by
  induction n with
  | zero => intro c hc; simpa using hc
  | succ n ih => intro c hc; rw [Function.iterate_succ_apply]; exact ih _ (crc_shift_lt c hc)

theorem crc_shift_iterate_inj (n : Nat) : ∀ c d, c < 2 ^ 32 → d < 2 ^ 32 →
    crc_shift^[n] c = crc_shift^[n] d → c = d := by
  induction n with
  | zero => intro c d _ _ h; simpa using h
  | succ n ih =>
    intro c d hc hd h
    rw [Function.iterate_succ_apply, Function.iterate_succ_apply] at h
    exact crc_shift_inj c d hc hd (ih _ _ (crc_shift_lt c hc) (crc_shift_lt d hd) h)

theorem byte_lt_word (b : Nat) (hb : b < 256) : b < 2 ^ 32 := by omega

/-- One byte of `crc32` keeps the checksum within 32 bits. -/
theorem crc32_byte_lt (c b : Nat) (hc : c < 2 ^ 32) (hb : b < 256) :
    crc32_bits 8 c b < 2 ^ 32 := by
  rw [crc32_bits_eq 8 c b (by omega)]
  exact crc_shift_iterate_lt 8 _ (Nat.xor_lt_two_pow hc (byte_lt_word b hb))

/-- One byte of `crc32` is injective in the checksum it starts from. -/
theorem crc32_byte_inj_crc (c d b : Nat) (hc : c < 2 ^ 32) (hd : d < 2 ^ 32) (hb : b < 256)
    (h : crc32_bits 8 c b = crc32_bits 8 d b) : c = d := by
  rw [crc32_bits_eq 8 c b (by omega), crc32_bits_eq 8 d b (by omega)] at h
  have := crc_shift_iterate_inj 8 _ _ (Nat.xor_lt_two_pow hc (byte_lt_word b hb))
    (Nat.xor_lt_two_pow hd (byte_lt_word b hb)) h
  exact Nat.xor_left_injective this

/-- One byte of `crc32` is injective in the byte. -/
theorem crc32_byte_inj_value (c x y : Nat) (hc : c < 2 ^ 32) (hx : x < 256) (hy : y < 256)
    (h : crc32_bits 8 c x = crc32_bits 8 c y) : x = y := by
  rw [crc32_bits_eq 8 c x (by omega), crc32_bits_eq 8 c y (by omega)] at h
  have := crc_shift_iterate_inj 8 _ _ (Nat.xor_lt_two_pow hc (byte_lt_word x hx))
    (Nat.xor_lt_two_pow hc (byte_lt_word y hy)) h
  exact Nat.xor_right_injective this

theorem crc32_append (c : Nat) (a b : List Nat) :
    crc32 c (a ++ b) = crc32 (crc32 c a) b := by
  induction a generalizing c with
  | nil => rfl
  | cons x a ih =>
    rw [List.cons_append, crc32, crc32]
    exact ih _

theorem crc32_lt (l : List Nat) : ∀ c, c < 2 ^ 32 → (∀ b ∈ l, b < 256) → crc32 c l < 2 ^ 32 := by
  induction l with
  | nil => intro c hc _; simpa [crc32] using hc
  | cons x l ih =>
    intro c hc hl
    rw [crc32]
    exact ih _ (crc32_byte_lt c x hc (hl x (by simp))) (fun b hb => hl b (by simp [hb]))

/-- Over the same bytes, `crc32` is injective in its seed. -/
theorem crc32_inj_seed (l : List Nat) : ∀ c d, c < 2 ^ 32 → d < 2 ^ 32 →
    (∀ b ∈ l, b < 256) → crc32 c l = crc32 d l → c = d := by
  induction l with
  | nil => intro c d _ _ _ h; simpa [crc32] using h
  | cons x l ih =>
    intro c d hc hd hl h
    rw [crc32, crc32] at h
    have hx : x < 256 := hl x (by simp)
    have := ih _ _ (crc32_byte_lt c x hc hx) (crc32_byte_lt d x hd hx)
      (fun b hb => hl b (by simp [hb])) h
    exact crc32_byte_inj_crc c d x hc hd hx this

/-- Two byte sequences that differ in exactly one byte have different checksums. -/
theorem crc32_ne_of_one_byte (seed : Nat) (pre suf : List Nat) (x y : Nat)
    (hseed : seed < 2 ^ 32) (hpre : ∀ b ∈ pre, b < 256) (hsuf : ∀ b ∈ suf, b < 256)
    (hx : x < 256) (hy : y < 256) (hxy : x ≠ y) :
    crc32 seed (pre ++ x :: suf) ≠ crc32 seed (pre ++ y :: suf) := by
  intro h
  rw [crc32_append, crc32_append, crc32, crc32] at h
  have hc := crc32_lt pre seed hseed hpre
  have h2 := crc32_inj_seed suf _ _ (crc32_byte_lt _ x hc hx) (crc32_byte_lt _ y hc hy) hsuf h
  exact hxy (crc32_byte_inj_value _ x y hc hx hy h2)

/-- Changing one byte of a byte sequence changes its checksum. -/
theorem crc32_set_ne (seed : Nat) (l : List Nat) (j y : Nat)
    (hseed : seed < 2 ^ 32) (hl : ∀ b ∈ l, b < 256) (hj : j < l.length) (hy : y < 256)
    (hne : l.getD j 0 ≠ y) :
    crc32 seed (l.set j y) ≠ crc32 seed l := by
  have hx : l.getD j 0 = l[j] := by simp [List.getD_eq_getElem?_getD, hj]
  have hdec : l = l.take j ++ l[j] :: l.drop (j + 1) := by
    rw [List.getElem_cons_drop, List.take_append_drop]
  rw [List.set_eq_take_cons_drop y hj]
  conv_rhs => rw [hdec]
  refine (crc32_ne_of_one_byte seed _ _ l[j] y hseed ?_ ?_ ?_ hy (by rw [← hx]; exact hne)).symm
  · exact fun b hb => hl b (List.mem_of_mem_take hb)
  · exact fun b hb => hl b (List.mem_of_mem_drop hb)
  · exact hl _ (List.getElem_mem _)

/-! ## Corrupting one byte of the payload (C5) -/

theorem image_of_single (t : Sect) : image_of [t] = t.hdr ++ t.payload := by
  simp [image_of, Sect.bytes]

/-- Changing byte `36 + j` of a one-section image changes byte `j` of the payload. -/
theorem image_set_payload (t : Sect) (hlen : t.hdr.length = HDR_SIZE) (j y : Nat) :
    (image_of [t]).set (HDR_SIZE + j) y = image_of [⟨t.hdr, t.payload.set j y⟩] := by
  rw [image_of_single, image_of_single, List.set_append, hlen]
  simp

/-- The checks of `cal_read_block` on the only section of an image, when it is well-formed
and carries the requested name. -/
theorem cal_read_block_exit_single (malloc : Nat → Bool) (X : List Nat) (flags : Nat)
    (t : Sect) (hwf : t.WellFormed) (hname : t.Named X) :
    cal_read_block_exit malloc (image_of [t]) (some X) flags
      = read_checks malloc flags t.hdr t.payload := by
  have hX : cstr X = X := cstr_of_named t X hname
  exact cal_read_block_exit_sections malloc X flags [] [] t (by simpa using hwf)
    (by rw [hX]; exact hname) (by simp) (by simp)

/-- C5: corrupting one byte of a section's payload is always detected. For an image that
consists of exactly one well-formed, correctly checksummed section named `X`, and the
image that differs from it in exactly one payload byte, `cal_read_block(image', X, 0)`
leaves through the payload checksum comparison, returning `-1` and no block; and `crc32`
with a fixed seed never gives the same value on two byte sequences of equal length that
differ in exactly one byte. -/
theorem payload_corruption_detected (malloc : Nat → Bool) (X : List Nat) (t : Sect)
    (j y : Nat) (hwf : t.WellFormed) (hsum : t.Checksummed) (hname : t.Named X)
    (hbytes : ∀ b ∈ t.payload, b < 256) (hj : j < t.payload.length) (hy : y < 256)
    (hne : t.payload.getD j 0 ≠ y) :
    cal_read_block_exit malloc ((image_of [t]).set (HDR_SIZE + j) y) (some X) 0
        = .datasum_invalid
      ∧ cal_read_block malloc ((image_of [t]).set (HDR_SIZE + j) y) (some X) 0 = (-1, none)
      ∧ crc32 0 (t.payload.set j y) ≠ hdr_datasum t.hdr
      ∧ ∀ (seed : Nat) (l : List Nat) (k z : Nat), seed < 2 ^ 32 → (∀ b ∈ l, b < 256) →
          k < l.length → z < 256 → l.getD k 0 ≠ z → crc32 seed (l.set k z) ≠ crc32 seed l := by
  have hcrc : crc32 0 (t.payload.set j y) ≠ hdr_datasum t.hdr := by
    rw [hsum.2]
    exact crc32_set_ne 0 t.payload j y (by decide) hbytes hj hy hne
  have hwf2 : (⟨t.hdr, t.payload.set j y⟩ : Sect).WellFormed :=
    ⟨hwf.1, hwf.2.1, by simpa using hwf.2.2⟩
  have hexit : cal_read_block_exit malloc ((image_of [t]).set (HDR_SIZE + j) y) (some X) 0
      = .datasum_invalid := by
    rw [image_set_payload t hwf.1,
      cal_read_block_exit_single malloc X 0 ⟨t.hdr, t.payload.set j y⟩ hwf2 hname]
    unfold read_checks
    simp [← hsum.1, hcrc]
  refine ⟨hexit, ?_, hcrc, ?_⟩
  · unfold cal_read_block
    rw [hexit]; rfl
  · intro seed l k z hseed hl hk hz hkz
    exact crc32_set_ne seed l k z hseed hl hk hz hkz

set_option maxRecDepth 100000 in
/-- Instance of C5: the second payload byte of `secX0` changed from 2 to 130. -/
theorem payload_corruption_detected_witness :
    cal_read_block_exit (fun _ => true) ((image_of [secX0]).set (HDR_SIZE + 1) 130) (some [88]) 0
        = .datasum_invalid
      ∧ cal_read_block (fun _ => true) ((image_of [secX0]).set (HDR_SIZE + 1) 130) (some [88]) 0
        = (-1, none)
      ∧ crc32 0 (secX0.payload.set 1 130) ≠ hdr_datasum secX0.hdr
      ∧ ∀ (seed : Nat) (l : List Nat) (k z : Nat), seed < 2 ^ 32 → (∀ b ∈ l, b < 256) →
          k < l.length → z < 256 → l.getD k 0 ≠ z → crc32 seed (l.set k z) ≠ crc32 seed l :=
  payload_corruption_detected (fun _ => true) [88] secX0 1 130
    (by decide) (by decide) (by decide) (by decide) (by decide) (by decide) (by decide)

/-! ## An overrunning length stops the scan (C7) -/

/-- The loop returns the same value from every point it reaches. -/
theorem find_section_loop_reaches (data : List Nat) (want_index : Int)
    (want_name : Option (List Nat)) (s t : ScanState)
    (h : Reaches data want_index want_name s t) :
    find_section_loop data want_index want_name s
      = find_section_loop data want_index want_name t := by
  induction h with
  | start => rfl
  | pass t u _ hbody ih => rw [ih, find_section_loop_next _ _ _ _ _ hbody]

theorem cal_read_block_exit_not_found (malloc : Nat → Bool) (mem : List Nat)
    (name : Option (List Nat)) (flags : Nat)
    (h : find_section mem mem.length INDEX_LAST name = -1) :
    cal_read_block_exit malloc mem name flags = .not_found := by
  unfold cal_read_block_exit
  simp [h]

/-- C7: an overrunning length is a hard stop. If the cursor of `find_section`, called by
`cal_read_block` with `INDEX_LAST`, reaches an offset that holds a valid header (magic
present, at least 36 bytes remaining) whose length field is greater than the number of
bytes remaining after that header, then `find_section` returns `-1` and `cal_read_block`
fails as for a section that is not found, whatever was accepted before and whatever lies
later in the buffer. -/
theorem overrun_is_hard_stop (malloc : Nat → Bool) (mem : List Nat)
    (name : Option (List Nat)) (flags : Nat) (t : ScanState)
    (hreach : Reaches mem INDEX_LAST name (scan_start mem.length) t)
    (hhdr : is_header (mem.drop t.offset) t.count = true)
    (hover : t.count - HDR_SIZE < hdr_length (mem.drop t.offset)) :
    find_section mem mem.length INDEX_LAST name = -1
      ∧ cal_read_block_exit malloc mem name flags = .not_found
      ∧ cal_read_block malloc mem name flags = (-1, none) := by
  have hcount : ¬ t.count < HDR_SIZE := by
    intro hlt
    unfold is_header at hhdr
    simp [hlt] at hhdr
  have hbody : find_section_body mem INDEX_LAST name t = .ret (-1) := by
    rw [find_section_body_eq, if_neg hcount, if_neg (by simp [hhdr]), if_pos hover]
  have hfind : find_section mem mem.length INDEX_LAST name = -1 := by
    unfold find_section
    have := find_section_loop_reaches mem INDEX_LAST name _ t hreach
    unfold scan_start at this
    rw [this, find_section_loop_ret _ _ _ _ _ hbody]
  have hexit := cal_read_block_exit_not_found malloc mem name flags hfind
  refine ⟨hfind, hexit, ?_⟩
  unfold cal_read_block
  rw [hexit]; rfl

/-- Instance of C7: the valid section `secX0` is accepted, then the cursor stands on
`hdrOverrun`, which claims 100 bytes where 38 remain (those of the valid section `secX1`). -/
theorem overrun_is_hard_stop_witness :
    find_section (image_of [secX0] ++ hdrOverrun ++ image_of [secX1])
        (image_of [secX0] ++ hdrOverrun ++ image_of [secX1]).length INDEX_LAST (some [88]) = -1
      ∧ cal_read_block_exit (fun _ => true)
          (image_of [secX0] ++ hdrOverrun ++ image_of [secX1]) (some [88]) 0 = .not_found
      ∧ cal_read_block (fun _ => true)
          (image_of [secX0] ++ hdrOverrun ++ image_of [secX1]) (some [88]) 0 = (-1, none) :=
  overrun_is_hard_stop (fun _ => true) (image_of [secX0] ++ hdrOverrun ++ image_of [secX1])
    (some [88]) 0 { count := 74, offset := 39, found_offset := 0, previous_index := 0 }
    (Reaches.pass _ _ Reaches.start (by decide)) (by decide) (by decide)

/-! ## Required flags (C8) -/

set_option maxRecDepth 100000 in
/-- C8 fails for the required flags 0: the only section named `X` is well-formed and
correctly checksummed and stores the flags 7, the required flags 0 do not equal 7, and
`cal_read_block` succeeds. -/
theorem required_flags_zero_counterexample :
    secXflags7.WellFormed ∧ secXflags7.Checksummed ∧ secXflags7.Named [88]
      ∧ hdr_flags secXflags7.hdr = 7 ∧ (0 : Nat) ≠ 7
      ∧ cal_read_block (fun _ => true) (image_of [secXflags7]) (some [88]) 0
          = (0, some ([1], 1)) := by
  refine ⟨by decide, by decide, by decide, by decide, by decide, ?_⟩
  simp only [cal_read_block, cal_read_block_exit, find_section_eq_fuel]
  decide

/-- C8, amended: in an image made of well-formed sections of which exactly one, `t`, is
named `X`, with valid header and payload checksums and stored flags `F`, for every
non-zero `required_flags` value `R` that does not equal `F`, `cal_read_block(image, X, R)`
fails at the flags comparison, returning `-1` and no block, although both checksums are
valid. -/
theorem required_flags_mismatch (malloc : Nat → Bool) (X : List Nat) (R : Nat)
    (before after : List Sect) (t : Sect)
    (hwf : ∀ s ∈ before ++ t :: after, s.WellFormed)
    (ht : t.Named X)
    (huniq : ∀ s ∈ before ++ after, ¬ s.Named X)
    (hsum : t.Checksummed)
    (hR0 : R ≠ 0) (hR : R ≠ hdr_flags t.hdr) :
    cal_read_block_exit malloc (image_of (before ++ t :: after)) (some X) R = .flags_mismatch
      ∧ cal_read_block malloc (image_of (before ++ t :: after)) (some X) R = (-1, none) := by
  have hX : cstr X = X := cstr_of_named t X ht
  have hexit : cal_read_block_exit malloc (image_of (before ++ t :: after)) (some X) R
      = .flags_mismatch := by
    rw [cal_read_block_exit_sections malloc X R before after t hwf
      (by rw [hX]; exact ht)
      (fun s hs hn => absurd (by rw [hX] at hn; exact hn) (huniq s (by simp [hs])))
      (fun s hs hn => absurd (by rw [hX] at hn; exact hn) (huniq s (by simp [hs])))]
    unfold read_checks
    rw [if_pos ⟨hR0, fun h => hR h.symm⟩]
  refine ⟨hexit, ?_⟩
  unfold cal_read_block
  rw [hexit]; rfl

set_option maxRecDepth 100000 in
/-- Instance of the amended C8: required flags 3 against stored flags 7. -/
theorem required_flags_mismatch_witness :
    cal_read_block_exit (fun _ => true) (image_of ([secY] ++ secXflags7 :: [])) (some [88]) 3
        = .flags_mismatch
      ∧ cal_read_block (fun _ => true) (image_of ([secY] ++ secXflags7 :: [])) (some [88]) 3
        = (-1, none) :=
  required_flags_mismatch (fun _ => true) [88] 3 [secY] [] secXflags7
    (by decide) (by decide) (by decide) (by decide) (by decide) (by decide)

/-! ## No fallback to an older version (C9) -/

/-- C9: `cal_read_block` validates only the section chosen by Latest selection and never
falls back to an older version. In an image made of well-formed sections, let `t` be the
section named `X` that Latest selection chooses (the first one carrying the largest index
among the sections named `X`). If the flags of `t` differ from a non-zero `required_flags`,
or its `hdrsum` is wrong, or its `datasum` is wrong, then `cal_read_block` fails, whatever
the other sections named `X` are like. -/
theorem cal_read_block_no_fallback (malloc : Nat → Bool) (X : List Nat) (flags : Nat)
    (before after : List Sect) (t : Sect)
    (hwf : ∀ s ∈ before ++ t :: after, s.WellFormed)
    (ht : t.Named X)
    (hbefore : ∀ s ∈ before, s.Named X → hdr_index s.hdr < hdr_index t.hdr)
    (hafter : ∀ s ∈ after, s.Named X → hdr_index s.hdr ≤ hdr_index t.hdr)
    (hbad : (flags ≠ 0 ∧ hdr_flags t.hdr ≠ flags)
      ∨ crc32 0 (t.hdr.take 32) ≠ hdr_hdrsum t.hdr
      ∨ crc32 0 t.payload ≠ hdr_datasum t.hdr) :
    cal_read_block malloc (image_of (before ++ t :: after)) (some X) flags = (-1, none) := by
  have hX : cstr X = X := cstr_of_named t X ht
  have hexit := cal_read_block_exit_sections malloc X flags before after t hwf
    (by rw [hX]; exact ht)
    (fun s hs hn => hbefore s hs (by rw [hX] at hn; exact hn))
    (fun s hs hn => hafter s hs (by rw [hX] at hn; exact hn))
  unfold cal_read_block
  rw [hexit]
  unfold read_checks
  by_cases h1 : flags ≠ 0 ∧ hdr_flags t.hdr ≠ flags
  · rw [if_pos h1]; rfl
  · rw [if_neg h1]
    by_cases h2 : crc32 0 (t.hdr.take 32) ≠ hdr_hdrsum t.hdr
    · rw [if_pos h2]; rfl
    · rw [if_neg h2]
      have h3 : crc32 0 t.payload ≠ hdr_datasum t.hdr := by
        rcases hbad with h | h | h
        · exact absurd h h1
        · exact absurd h h2
        · exact h
      rw [if_pos h3]; rfl

set_option maxRecDepth 100000 in
/-- Instance of C9: the older versions `secX0` and `secX1` are valid, the version of index 5
has a wrong `datasum`, and the read fails. -/
theorem cal_read_block_no_fallback_witness :
    cal_read_block (fun _ => true) (image_of ([secX0, secX1] ++ secXbadData :: [secX2]))
      (some [88]) 0 = (-1, none) :=
  cal_read_block_no_fallback (fun _ => true) [88] 0 [secX0, secX1] [secX2] secXbadData
    (by decide) (by decide) (by decide) (by decide) (by decide)

/-! ## The value returned on failure (C10) -/

set_option maxRecDepth 100000 in
/-- C10 fails: four calls that leave `cal_read_block` through its four different failing
checks (section not found, flags mismatch, header checksum, payload checksum) return the
same value `-1` and no block. -/
theorem failure_kinds_counterexample :
    cal_read_block_exit (fun _ => true) (image_of [secY]) (some [88]) 0 = .not_found
      ∧ cal_read_block_exit (fun _ => true) (image_of [secXflags7]) (some [88]) 3
          = .flags_mismatch
      ∧ cal_read_block_exit (fun _ => true) (image_of [secXbadHdr]) (some [88]) 0
          = .hdrsum_invalid
      ∧ cal_read_block_exit (fun _ => true) (image_of [secXbadData]) (some [88]) 0
          = .datasum_invalid
      ∧ cal_read_block (fun _ => true) (image_of [secY]) (some [88]) 0 = (-1, none)
      ∧ cal_read_block (fun _ => true) (image_of [secXflags7]) (some [88]) 3 = (-1, none)
      ∧ cal_read_block (fun _ => true) (image_of [secXbadHdr]) (some [88]) 0 = (-1, none)
      ∧ cal_read_block (fun _ => true) (image_of [secXbadData]) (some [88]) 0 = (-1, none) := by
  simp only [cal_read_block, cal_read_block_exit, find_section_eq_fuel]
  decide

/-- C10, amended: `cal_read_block` returns 0 together with the block when it succeeds, and
the same value `-1` with no block at every failing `return` (section not found, flags
mismatch, header checksum invalid, payload checksum invalid, allocation failure): the
returned value tells a caller that the read failed, not which check failed. -/
theorem cal_read_block_failures_alike (malloc : Nat → Bool) (mem : List Nat)
    (name : Option (List Nat)) (flags : Nat) :
    match cal_read_block_exit malloc mem name flags with
    | .ok B L => cal_read_block malloc mem name flags = (0, some (B, L))
    | _ => cal_read_block malloc mem name flags = (-1, none) := by
  unfold cal_read_block
  cases cal_read_block_exit malloc mem name flags <;> rfl

/-! ## Corrupting one byte of the header (C6) -/

/-- Where no header can start, the loop only resynchronises and returns the candidate it
holds. -/
theorem find_section_loop_resync (data : List Nat) (want_index : Int)
    (want_name : Option (List Nat)) :
    ∀ (c : Nat) (s : ScanState), s.count = c →
      (∀ k, s.offset ≤ k → k + HDR_SIZE ≤ s.offset + s.count →
        hdr_magic (data.drop k) ≠ HDR_MAGIC) →
      find_section_loop data want_index want_name s = s.found_offset := by
  intro c
  induction c with
  | zero =>
    intro s hc _
    apply find_section_loop_ret
    rw [find_section_body_eq, if_pos (by rw [hc]; decide)]
  | succ n ih =>
    intro s hc hno
    by_cases h1 : s.count < HDR_SIZE
    · apply find_section_loop_ret
      rw [find_section_body_eq, if_pos h1]
    · have hsz : HDR_SIZE = 36 := rfl
      have h2 : is_header (data.drop s.offset) s.count = false := by
        unfold is_header
        rw [if_neg h1, if_pos (hno s.offset (Nat.le_refl _) (by omega))]
      have hbody : find_section_body data want_index want_name s
          = .next { s with count := s.count - 1, offset := s.offset + 1 } := by
        rw [find_section_body_eq, if_neg h1, if_pos h2]
      rw [find_section_loop_next _ _ _ _ _ hbody]
      exact ih _ (by simp only []; omega)
        (fun k hk1 hk2 => hno k (by simp only [] at hk1; omega) (by simp only [] at hk2; omega))

/-- The scan of an image that starts with one header carrying the magic: the result is `-1`
or the offset 0 of that header, provided no header can start in the bytes that this header
leaves unclaimed. -/
theorem find_section_single_header (X : List Nat) (hdr payload : List Nat)
    (hlen : hdr.length = HDR_SIZE) (hmagic : hdr_magic hdr = HDR_MAGIC)
    (hno : ∀ k, HDR_SIZE + hdr_length hdr ≤ k → k + HDR_SIZE ≤ HDR_SIZE + payload.length →
      hdr_magic ((hdr ++ payload).drop k) ≠ HDR_MAGIC) :
    find_section (hdr ++ payload) (hdr ++ payload).length INDEX_LAST (some X) = -1
      ∨ find_section (hdr ++ payload) (hdr ++ payload).length INDEX_LAST (some X) = 0 := by
  have hsz : HDR_SIZE = 36 := rfl
  by_cases hfit : payload.length < hdr_length hdr
  · left
    unfold find_section
    apply find_section_loop_ret
    have h1 : ¬ (hdr ++ payload).length < HDR_SIZE := by simp [hlen]
    have h2 : ¬ is_header (hdr ++ payload) (hdr ++ payload).length = false := by
      unfold is_header
      rw [if_neg h1, hdr_magic_append hdr payload hlen]
      simp [hmagic]
    have h3 : (hdr ++ payload).length - HDR_SIZE < hdr_length (hdr ++ payload) := by
      rw [hdr_length_append hdr payload hlen]
      simp [hlen]; omega
    rw [find_section_body_eq]
    simp only [List.drop_zero]
    rw [if_neg h1, if_neg h2, if_pos h3]
  · have hle : hdr_length hdr ≤ payload.length := by omega
    have hwf : (⟨hdr, payload.take (hdr_length hdr)⟩ : Sect).WellFormed :=
      ⟨hlen, hmagic, by simp [hle]⟩
    have hbody := find_section_body_section INDEX_LAST (some X) []
      ⟨hdr, payload.take (hdr_length hdr)⟩ (payload.drop (hdr_length hdr)) hwf (-1) (-1)
    have hbytes : (⟨hdr, payload.take (hdr_length hdr)⟩ : Sect).bytes.length
        = HDR_SIZE + hdr_length hdr := by
      simp [Sect.bytes, hlen, hle]
    simp only [List.nil_append, List.take_append_drop, List.length_nil, Nat.zero_add, hbytes,
      if_true, Nat.cast_zero] at hbody
    have hresync : ∀ (found prev : Int),
        find_section_loop (hdr ++ payload) INDEX_LAST (some X)
          { count := (payload.drop (hdr_length hdr)).length,
            offset := HDR_SIZE + hdr_length hdr, found_offset := found,
            previous_index := prev } = found := by
      intro found prev
      apply find_section_loop_resync (hdr ++ payload) INDEX_LAST (some X) _ _ rfl
      intro k hk1 hk2
      simp only [List.length_drop] at hk1 hk2
      exact hno k hk1 (by omega)
    unfold find_section
    by_cases hskip : sel_skip INDEX_LAST (some X) (-1) hdr = true
    · rw [if_pos hskip] at hbody
      rw [find_section_loop_next _ _ _ _ _ hbody, hresync]
      exact Or.inl rfl
    · rw [if_neg hskip] at hbody
      rw [find_section_loop_next _ _ _ _ _ hbody, hresync]
      exact Or.inr rfl

theorem getD_take_lt (l : List Nat) (n i : Nat) (h : i < n) :
    (l.take n).getD i 0 = l.getD i 0 := by
  simp [List.getD_eq_getElem?_getD, List.getElem?_take_of_lt h]

theorem getD_set_self (l : List Nat) (i y : Nat) (h : i < l.length) :
    (l.set i y).getD i 0 = y := by
  simp [List.getD_eq_getElem?_getD, List.getElem?_set, h]

theorem take_set_of_le (l : List Nat) (i n y : Nat) (h : n ≤ i) :
    (l.set i y).take n = l.take n := by
  rw [List.set_take, List.set_eq_of_length_le (by simp; omega)]

theorem getD_drop_set_ne (l : List Nat) (i y k j : Nat) (h : i ≠ k + j) :
    ((l.set i y).drop k).getD j 0 = (l.drop k).getD j 0 := by
  simp [List.getD_eq_getElem?_getD, List.getElem?_drop, List.getElem?_set_ne h]

/-- A byte outside the length field does not change the length field. -/
theorem hdr_length_set (l : List Nat) (i y : Nat) (h : i < 24 ∨ 28 ≤ i) :
    hdr_length (l.set i y) = hdr_length l := by
  unfold hdr_length le32
  rw [getD_drop_set_ne l i y 24 0 (by omega), getD_drop_set_ne l i y 24 1 (by omega),
    getD_drop_set_ne l i y 24 2 (by omega), getD_drop_set_ne l i y 24 3 (by omega)]

/-- A byte before the checksum field does not change the stored header checksum. -/
theorem hdr_hdrsum_set (l : List Nat) (i y : Nat) (h : i < 32) :
    hdr_hdrsum (l.set i y) = hdr_hdrsum l := by
  unfold hdr_hdrsum
  rw [List.drop_set_of_lt _ _ h]

/-- With `flags = 0`, a scan that returns the offset 0 of a header whose stored checksum is
wrong makes `cal_read_block` leave at the header checksum comparison. -/
theorem cal_read_block_exit_hdrsum (malloc : Nat → Bool) (name : Option (List Nat))
    (hdr rest : List Nat) (hlen : hdr.length = HDR_SIZE)
    (hfind : find_section (hdr ++ rest) (hdr ++ rest).length INDEX_LAST name = 0)
    (hsum : crc32 0 (hdr.take 32) ≠ hdr_hdrsum hdr) :
    cal_read_block_exit malloc (hdr ++ rest) name 0 = .hdrsum_invalid := by
  have htake : List.take (HDR_SIZE - 4) (hdr ++ rest) = List.take 32 hdr := by
    unfold HDR_SIZE at hlen ⊢
    exact List.take_append_of_le_length (by omega)
  unfold cal_read_block_exit
  simp only [hfind, lt_self_iff_false, if_false, Int.toNat_zero, List.drop_zero, ne_eq,
    not_true_eq_false, false_and, htake, hdr_hdrsum_append hdr rest hlen, hsum,
    not_false_eq_true, if_true]

/-- A header with one of its first 32 bytes changed no longer has the checksum it stores. -/
theorem hdrsum_wrong_after_set (hdr : List Nat) (i y : Nat) (hlen : hdr.length = HDR_SIZE)
    (hsum : hdr_hdrsum hdr = crc32 0 (hdr.take 32)) (hbytes : ∀ b ∈ hdr, b < 256)
    (hi : i < 32) (hy : y < 256) (hne : hdr.getD i 0 ≠ y) :
    crc32 0 ((hdr.set i y).take 32) ≠ hdr_hdrsum (hdr.set i y) := by
  rw [hdr_hdrsum_set hdr i y hi, hsum, List.set_take]
  apply crc32_set_ne 0 (hdr.take 32) i y (by decide)
  · exact fun b hb => hbytes b (List.mem_of_mem_take hb)
  · unfold HDR_SIZE at hlen; simp [hlen]; omega
  · exact hy
  · rw [getD_take_lt _ _ _ hi]; exact hne

/-- Changing one of the magic bytes takes the magic away. -/
theorem magic_broken_after_set (hdr : List Nat) (i y : Nat) (hlen : hdr.length = HDR_SIZE)
    (hmagic : hdr_magic hdr = HDR_MAGIC) (hi : i < 4) (hne : hdr.getD i 0 ≠ y) :
    hdr_magic (hdr.set i y) ≠ HDR_MAGIC := by
  intro h
  unfold hdr_magic at h hmagic
  have h1 : ((hdr.set i y).take 4).getD i 0 = y := by
    rw [getD_take_lt _ _ _ hi]
    exact getD_set_self hdr i y (by unfold HDR_SIZE at hlen; omega)
  have h2 : (hdr.take 4).getD i 0 = hdr.getD i 0 := getD_take_lt _ _ _ hi
  rw [h, ← hmagic, h2] at h1
  exact hne h1

/-- Changing byte `i < 36` of a one-section image changes byte `i` of the header. -/
theorem image_set_header (t : Sect) (hlen : t.hdr.length = HDR_SIZE) (i y : Nat) (hi : i < 32) :
    (image_of [t]).set i y = t.hdr.set i y ++ t.payload := by
  rw [image_of_single, List.set_append, if_pos (by unfold HDR_SIZE at hlen; omega)]

set_option maxRecDepth 100000 in
/-- C6 fails: `secXouter` is a well-formed, correctly checksummed section named `X`, and
changing the first byte of its header (a byte of the magic) from 67 to 0 makes
`cal_read_block` succeed, with the payload of the section that the payload of `secXouter`
holds. -/
theorem header_corruption_counterexample :
    secXouter.WellFormed ∧ secXouter.Checksummed ∧ secXouter.Named [88]
      ∧ (image_of [secXouter]).getD 0 0 = 67
      ∧ cal_read_block (fun _ => true) ((image_of [secXouter]).set 0 0) (some [88]) 0
          = (0, some ([4, 5], 2)) := by
  refine ⟨by decide, by decide, by decide, by decide, ?_⟩
  simp only [cal_read_block, cal_read_block_exit, find_section_eq_fuel]
  decide

/-- C6, amended: take an image that consists of exactly one well-formed, correctly
checksummed section named `X`, and change exactly one of the first 32 bytes of its header.
If the changed byte lies in the type, index, flags, name or datasum field, or if the
changed image holds the magic `ConF` at no offset other than 0, then
`cal_read_block(image', X, 0)` returns `-1` and no block: it leaves either because the
scanner finds no section or at the header checksum comparison. -/
theorem header_corruption_detected (malloc : Nat → Bool) (X : List Nat) (t : Sect)
    (i y : Nat) (hwf : t.WellFormed) (hsum : t.Checksummed) (hname : t.Named X)
    (hbytes : ∀ b ∈ t.hdr, b < 256) (hi : i < 32) (hy : y < 256)
    (hne : t.hdr.getD i 0 ≠ y)
    (hcase : (4 ≤ i ∧ i < 24) ∨ 28 ≤ i
      ∨ ∀ k < ((image_of [t]).set i y).length, 1 ≤ k →
          hdr_magic (((image_of [t]).set i y).drop k) ≠ HDR_MAGIC) :
    (cal_read_block_exit malloc ((image_of [t]).set i y) (some X) 0 = .not_found
        ∨ cal_read_block_exit malloc ((image_of [t]).set i y) (some X) 0 = .hdrsum_invalid)
      ∧ cal_read_block malloc ((image_of [t]).set i y) (some X) 0 = (-1, none) := by
  obtain ⟨hlen, hmagic, hplen⟩ := hwf
  have hsz : HDR_SIZE = 36 := rfl
  have hlen2 : (t.hdr.set i y).length = HDR_SIZE := by simp [hlen]
  have hsum2 := hdrsum_wrong_after_set t.hdr i y hlen hsum.1 hbytes hi hy hne
  have himg := image_set_header t hlen i y hi
  rw [himg] at hcase ⊢
  have hfind : find_section (t.hdr.set i y ++ t.payload) (t.hdr.set i y ++ t.payload).length
        INDEX_LAST (some X) = -1
      ∨ find_section (t.hdr.set i y ++ t.payload) (t.hdr.set i y ++ t.payload).length
        INDEX_LAST (some X) = 0 := by
    by_cases hi4 : i < 4
    · left
      have hno : ∀ k < (t.hdr.set i y ++ t.payload).length, 1 ≤ k →
          hdr_magic ((t.hdr.set i y ++ t.payload).drop k) ≠ HDR_MAGIC := by
        rcases hcase with h | h | h
        · omega
        · omega
        · exact h
      unfold find_section
      apply find_section_loop_resync _ _ _ _ _ rfl
      intro k _ hk
      simp only [Nat.zero_add] at hk
      by_cases hk0 : k = 0
      · subst hk0
        rw [List.drop_zero, hdr_magic_append _ _ hlen2]
        exact magic_broken_after_set t.hdr i y hlen hmagic hi4 hne
      · exact hno k (by omega) (by omega)
    · have hmagic2 : hdr_magic (t.hdr.set i y) = HDR_MAGIC := by
        unfold hdr_magic at hmagic ⊢
        rw [take_set_of_le _ _ _ _ (by omega), hmagic]
      apply find_section_single_header X _ _ hlen2 hmagic2
      intro k hk1 hk2
      rcases hcase with h | h | h
      · rw [hdr_length_set _ _ _ (Or.inl h.2), hplen] at hk1; omega
      · rw [hdr_length_set _ _ _ (Or.inr h), hplen] at hk1; omega
      · exact h k (by simp [hlen]; omega) (by omega)
  have hexit : cal_read_block_exit malloc (t.hdr.set i y ++ t.payload) (some X) 0 = .not_found
      ∨ cal_read_block_exit malloc (t.hdr.set i y ++ t.payload) (some X) 0
          = .hdrsum_invalid := by
    rcases hfind with h | h
    · exact Or.inl (cal_read_block_exit_not_found malloc _ _ 0 h)
    · exact Or.inr (cal_read_block_exit_hdrsum malloc _ _ _ hlen2 h hsum2)
  refine ⟨hexit, ?_⟩
  unfold cal_read_block
  rcases hexit with h | h <;> rw [h] <;> rfl

set_option maxRecDepth 100000 in
/-- Instance of the amended C6: the first magic byte of `secX0` changed from 67 to 0; the
changed image holds the magic nowhere. -/
theorem header_corruption_detected_witness :
    (cal_read_block_exit (fun _ => true) ((image_of [secX0]).set 0 0) (some [88]) 0
          = .not_found
        ∨ cal_read_block_exit (fun _ => true) ((image_of [secX0]).set 0 0) (some [88]) 0
          = .hdrsum_invalid)
      ∧ cal_read_block (fun _ => true) ((image_of [secX0]).set 0 0) (some [88]) 0
          = (-1, none) :=
  header_corruption_detected (fun _ => true) [88] secX0 0 0
    (by decide) (by decide) (by decide) (by decide) (by decide) (by decide) (by decide)
    (Or.inr (Or.inr (by decide)))

/-! ## The checksum against its specification (C12) -/

/-- The inner loop of `crc32` is the bit step of the specification, run as many times. -/
theorem crc32_bits_eq_spec (n : Nat) : ∀ (c v : Nat),
    crc32_bits n c v = (spec_bit^[n] (c, v)).1 := by
  induction n with
  | zero => intro c v; rfl
  | succ n ih =>
    intro c v
    rw [crc32_bits, ih, Function.iterate_succ_apply]
    simp only [spec_bit, Nat.and_one_is_mod, Nat.shiftRight_eq_div_pow, pow_one, poly]

theorem crc32_eq_spec_checksum (bytes : List Nat) : ∀ seed,
    crc32 seed bytes = spec_checksum seed bytes := by
  induction bytes with
  | nil => intro seed; rfl
  | cons b rest ih =>
    intro seed
    rw [crc32, ih]
    simp only [spec_checksum, List.foldl_cons, spec_byte, crc32_bits_eq_spec]

theorem reflected_step_eq (c : Nat) (hc : c < 2 ^ 32) : reflected_step c = crc_shift c := by
  have := crc_shift_lt c hc
  unfold crc_shift poly at this
  unfold reflected_step crc_shift poly
  exact Nat.mod_eq_of_lt this

theorem reflected_step_iterate_eq (n : Nat) : ∀ c, c < 2 ^ 32 →
    reflected_step^[n] c = crc_shift^[n] c := by
  induction n with
  | zero => intro c _; rfl
  | succ n ih =>
    intro c hc
    rw [Function.iterate_succ_apply, Function.iterate_succ_apply, reflected_step_eq c hc]
    exact ih _ (crc_shift_lt c hc)

theorem crc32_eq_reflected (bytes : List Nat) : ∀ seed, seed < 2 ^ 32 →
    (∀ b ∈ bytes, b < 256) → crc32 seed bytes = crc32_reflected seed bytes := by
  induction bytes with
  | nil => intro seed _ _; rfl
  | cons b rest ih =>
    intro seed hseed hb
    have hb1 : b < 256 := hb b (by simp)
    have hx : seed ^^^ b < 2 ^ 32 := Nat.xor_lt_two_pow hseed (byte_lt_word b hb1)
    rw [crc32, ih _ (crc32_byte_lt seed b hseed hb1) (fun x hx => hb x (by simp [hx]))]
    simp only [crc32_reflected, List.foldl_cons]
    rw [Nat.mod_eq_of_lt hx, reflected_step_iterate_eq 8 _ hx, crc32_bits_eq 8 seed b (by omega)]

/-- C12: for every 32-bit seed and every byte sequence, `crc32(seed, bytes)` is the
bit-serial checksum that the specification describes, and it is the standard reflected
CRC-32 byte update without initial or final inversion, the left fold over the bytes of
`c ↦ step^8 (c XOR b)` with `step c = (c >> 1) XOR (0xEDB88320 if c is odd, else 0)`, all
in 32-bit arithmetic; its value fits in 32 bits. Test vectors: `crc32(0, empty) = 0` and
`crc32(0, [0x01]) = 0x77073096`. -/
theorem crc32_refines_spec (seed : Nat) (bytes : List Nat) (hseed : seed < 2 ^ 32)
    (hbytes : ∀ b ∈ bytes, b < 256) :
    crc32 seed bytes = spec_checksum seed bytes
      ∧ crc32 seed bytes = crc32_reflected seed bytes
      ∧ crc32 seed bytes < 2 ^ 32
      ∧ crc32 0 [] = 0
      ∧ crc32 0 [0x01] = 0x77073096 :=
  ⟨crc32_eq_spec_checksum bytes seed, crc32_eq_reflected bytes seed hseed hbytes,
    crc32_lt bytes seed hseed hbytes, rfl, by decide⟩

/-- Instance of C12: the seed 0 and the bytes `1 2 3`. -/
theorem crc32_refines_spec_witness :
    crc32 0 [1, 2, 3] = spec_checksum 0 [1, 2, 3]
      ∧ crc32 0 [1, 2, 3] = crc32_reflected 0 [1, 2, 3]
      ∧ crc32 0 [1, 2, 3] < 2 ^ 32
      ∧ crc32 0 [] = 0
      ∧ crc32 0 [0x01] = 0x77073096 :=
  crc32_refines_spec 0 [1, 2, 3] (by decide) (by decide)

/-! ## The checksum is incremental (C19) -/

/-- C19: `crc32` is incremental. For every seed `s` and byte sequences `a` and `b`,
`crc32(crc32(s, a), b) = crc32(s, a ++ b)`, and `crc32(s, empty) = s`. -/
theorem crc32_incremental (s : Nat) (a b : List Nat) :
    crc32 (crc32 s a) b = crc32 s (a ++ b) ∧ crc32 s [] = s :=
  ⟨(crc32_append s a b).symm, rfl⟩

/-! ## Leading zero bytes and the seed 0 (C20) -/

theorem crc32_zeros (n : Nat) : crc32 0 (List.replicate n 0) = 0 := by
  induction n with
  | zero => rfl
  | succ n ih =>
    rw [List.replicate_succ, crc32]
    have h : crc32_bits 8 0 0 = 0 := by decide
    rw [h, ih]

/-- C20: with the seed 0 used at both call sites, leading zero bytes are invisible to the
checksum. For every `n` and byte sequence `a`, `crc32(0, n zero bytes ++ a) = crc32(0, a)`,
and `crc32(0, n zero bytes) = 0`; so a payload and the same payload behind `n` more zero
bytes pass or fail the comparison with a stored `datasum` together. -/
theorem crc32_leading_zeros (n : Nat) (a : List Nat) (datasum : Nat) :
    crc32 0 (List.replicate n 0 ++ a) = crc32 0 a
      ∧ crc32 0 (List.replicate n 0) = 0
      ∧ (crc32 0 (List.replicate n 0 ++ a) ≠ datasum ↔ crc32 0 a ≠ datasum) := by
  have h : crc32 0 (List.replicate n 0 ++ a) = crc32 0 a := by
    rw [crc32_append, crc32_zeros]
  exact ⟨h, crc32_zeros n, by rw [h]⟩

/-! ## Name matching (C13) -/

/-- The scan of an image made of one well-formed section, when the selector accepts the
index of the header: the result depends on the name test only. -/
theorem find_section_one_section (want_index : Int) (X : List Nat) (t : Sect)
    (hwf : t.WellFormed)
    (hsel : want_index = INDEX_LAST ∨ want_index < 0 ∨ want_index = (hdr_index t.hdr : Int)) :
    find_section (image_of [t]) (image_of [t]).length want_index (some X)
      = if cstr X = cstr (hdr_name t.hdr) then 0 else -1 := by
  rw [find_section_sections want_index (some X) [t] (by simpa using hwf)]
  have hskip : sel_skip want_index (some X) (-1) t.hdr = decide (sectname t.hdr ≠ cstr X) := by
    unfold sel_skip
    by_cases h : want_index = INDEX_LAST
    · rw [if_pos h]
      have : ¬ ((hdr_index t.hdr : Int) ≤ -1) := by
        have := Int.ofNat_nonneg (hdr_index t.hdr); omega
      simp [this]
    · have h2 : ¬ (want_index ≥ 0 ∧ want_index ≠ (hdr_index t.hdr : Int)) := by
        rcases hsel with h3 | h3 | h3
        · exact absurd h3 h
        · omega
        · omega
      rw [if_neg h]
      simp [h2]
  have hscan : scan_sections want_index (some X) [t] 0 (-1) (-1)
      = if sel_skip want_index (some X) (-1) t.hdr = true then -1 else 0 := by
    simp only [scan_sections]
    split_ifs <;> simp
  rw [hscan, hskip, sectname_eq]
  by_cases hn : cstr X = cstr (hdr_name t.hdr)
  · have hn2 : ¬ (cstr (hdr_name t.hdr) ≠ cstr X) := fun h => h hn.symm
    simp [hn2, hn]
  · have hn2 : cstr (hdr_name t.hdr) ≠ cstr X := fun h => hn h.symm
    simp [hn2, hn]

theorem cstr_length_le (l : List Nat) : (cstr l).length ≤ l.length := by
  unfold cstr
  exact (List.takeWhile_sublist _).length_le

theorem cstr_of_no_nul (l : List Nat) (h : ∀ b ∈ l, b ≠ 0) : cstr l = l := by
  unfold cstr
  rw [List.takeWhile_eq_self_iff]
  intro b hb
  simpa using h b hb

theorem cstr_append_nul (pre junk : List Nat) (h : ∀ b ∈ pre, b ≠ 0) :
    cstr (pre ++ 0 :: junk) = pre := by
  unfold cstr
  induction pre with
  | nil => simp
  | cons a l ih =>
    have ha : a ≠ 0 := h a (by simp)
    simp only [List.cons_append, List.takeWhile_cons, bne_iff_ne, ne_eq, ha, not_false_eq_true,
      if_true, List.cons.injEq, true_and]
    exact ih (fun b hb => h b (by simp [hb]))

theorem hdr_name_length (hdr : List Nat) (hlen : hdr.length = HDR_SIZE) :
    (hdr_name hdr).length = 16 := by
  unfold hdr_name; unfold HDR_SIZE at hlen
  simp [hlen]

/-- C13: name matching in `find_section`. In an image made of one well-formed section, with
a selector that accepts the index of its header (`INDEX_LAST`, a negative index, or the
index of the header), the header is matched by the requested name `X` exactly when the
bytes of `X` (up to its terminating NUL) equal the 16-byte name field cut at its first NUL,
all 16 bytes when the field holds no NUL. Hence a name field of 16 bytes without a NUL is
matched by that 16-byte name, the bytes of the name field after its first NUL are ignored,
and a requested name longer than 16 bytes matches no section. -/
theorem name_matching (want_index : Int) (X : List Nat) (t : Sect)
    (hwf : t.WellFormed)
    (hsel : want_index = INDEX_LAST ∨ want_index < 0 ∨ want_index = (hdr_index t.hdr : Int)) :
    (find_section (image_of [t]) (image_of [t]).length want_index (some X) = 0
        ↔ cstr X = cstr (hdr_name t.hdr))
      ∧ (find_section (image_of [t]) (image_of [t]).length want_index (some X) = -1
        ↔ cstr X ≠ cstr (hdr_name t.hdr))
      ∧ ((∀ b ∈ hdr_name t.hdr, b ≠ 0) →
          cstr (hdr_name t.hdr) = hdr_name t.hdr ∧ (hdr_name t.hdr).length = 16
            ∧ find_section (image_of [t]) (image_of [t]).length want_index
                (some (hdr_name t.hdr)) = 0)
      ∧ (∀ pre junk, hdr_name t.hdr = pre ++ 0 :: junk → (∀ b ∈ pre, b ≠ 0) →
          (find_section (image_of [t]) (image_of [t]).length want_index (some X) = 0
            ↔ cstr X = pre))
      ∧ (16 < (cstr X).length →
          find_section (image_of [t]) (image_of [t]).length want_index (some X) = -1) := by
  have hone := find_section_one_section want_index X t hwf hsel
  have h0 : find_section (image_of [t]) (image_of [t]).length want_index (some X) = 0
      ↔ cstr X = cstr (hdr_name t.hdr) := by
    rw [hone]
    by_cases hn : cstr X = cstr (hdr_name t.hdr)
    · simp [hn]
    · simp [hn]
  have h1 : find_section (image_of [t]) (image_of [t]).length want_index (some X) = -1
      ↔ cstr X ≠ cstr (hdr_name t.hdr) := by
    rw [hone]
    by_cases hn : cstr X = cstr (hdr_name t.hdr)
    · simp [hn]
    · simp [hn]
  refine ⟨h0, h1, ?_, ?_, ?_⟩
  · intro hnn
    have hc := cstr_of_no_nul _ hnn
    refine ⟨hc, hdr_name_length t.hdr hwf.1, ?_⟩
    rw [find_section_one_section want_index (hdr_name t.hdr) t hwf hsel, if_pos rfl]
  · intro pre junk hfield hpre
    rw [h0, hfield, cstr_append_nul pre junk hpre]
  · intro hlong
    rw [h1]
    intro heq
    have h16 := cstr_length_le (hdr_name t.hdr)
    rw [hdr_name_length t.hdr hwf.1, ← heq] at h16
    omega

/-- Instance of C13, on the section whose name field is the 16 bytes `A` .. `P`. -/
theorem name_matching_witness :
    (find_section (image_of [secName16]) (image_of [secName16]).length INDEX_LAST
          (some [65, 66, 67]) = 0
        ↔ cstr [65, 66, 67] = cstr (hdr_name secName16.hdr))
      ∧ (find_section (image_of [secName16]) (image_of [secName16]).length INDEX_LAST
          (some [65, 66, 67]) = -1
        ↔ cstr [65, 66, 67] ≠ cstr (hdr_name secName16.hdr))
      ∧ ((∀ b ∈ hdr_name secName16.hdr, b ≠ 0) →
          cstr (hdr_name secName16.hdr) = hdr_name secName16.hdr
            ∧ (hdr_name secName16.hdr).length = 16
            ∧ find_section (image_of [secName16]) (image_of [secName16]).length INDEX_LAST
                (some (hdr_name secName16.hdr)) = 0)
      ∧ (∀ pre junk, hdr_name secName16.hdr = pre ++ 0 :: junk → (∀ b ∈ pre, b ≠ 0) →
          (find_section (image_of [secName16]) (image_of [secName16]).length INDEX_LAST
              (some [65, 66, 67]) = 0
            ↔ cstr [65, 66, 67] = pre))
      ∧ (16 < (cstr [65, 66, 67]).length →
          find_section (image_of [secName16]) (image_of [secName16]).length INDEX_LAST
            (some [65, 66, 67]) = -1) :=
  name_matching INDEX_LAST [65, 66, 67] secName16 (by decide) (Or.inl rfl)

/-! ## Buffers shorter than one header (C11) -/

/-- With fewer than 36 bytes to scan, the first pass of the loop leaves at its first test,
whatever the buffer holds. -/
theorem find_section_body_short (data : List Nat) (want_index : Int)
    (want_name : Option (List Nat)) (s : ScanState) (h : s.count < HDR_SIZE) :
    find_section_body data want_index want_name s = .ret s.found_offset := by
  rw [find_section_body_eq, if_pos h]

/-- C11: for every image shorter than one header (size below 36) and every name, selector
and flags, `find_section` returns `-1` and `cal_read_block` fails as for a section that is
not found. The loop is left in its first pass at the test `count < sizeof(struct header)`,
before `is_header` is evaluated, and no byte of the image is looked at: the result is the
same for every content of the buffer, the empty buffer included. -/
theorem short_image_not_found (malloc : Nat → Bool) (mem : List Nat)
    (name : Option (List Nat)) (flags : Nat) (want_index : Int) (hshort : mem.length < 36) :
    find_section mem mem.length want_index name = -1
      ∧ find_section_body mem want_index name (scan_start mem.length) = .ret (-1)
      ∧ (∀ other : List Nat, find_section other mem.length want_index name = -1)
      ∧ find_section [] mem.length want_index name = -1
      ∧ cal_read_block_exit malloc mem name flags = .not_found
      ∧ cal_read_block malloc mem name flags = (-1, none) := by
  have hbody : ∀ (wi : Int) (data : List Nat),
      find_section_body data wi name (scan_start mem.length) = .ret (-1) :=
    fun wi data => find_section_body_short data wi name (scan_start mem.length) hshort
  have hfind : ∀ (wi : Int) (data : List Nat), find_section data mem.length wi name = -1 :=
    fun wi data => find_section_loop_ret _ _ _ _ _ (hbody wi data)
  have hexit := cal_read_block_exit_not_found malloc mem name flags (hfind INDEX_LAST mem)
  refine ⟨hfind want_index mem, hbody want_index mem, hfind want_index, hfind want_index [],
    hexit, ?_⟩
  unfold cal_read_block
  rw [hexit]; rfl

/-- Instance of C11: an image of 35 bytes that starts with the magic. -/
theorem short_image_not_found_witness :
    find_section (secX0.hdr.take 35) (secX0.hdr.take 35).length INDEX_LAST (some [88]) = -1
      ∧ find_section_body (secX0.hdr.take 35) INDEX_LAST (some [88])
          (scan_start (secX0.hdr.take 35).length) = .ret (-1)
      ∧ (∀ other : List Nat,
          find_section other (secX0.hdr.take 35).length INDEX_LAST (some [88]) = -1)
      ∧ find_section [] (secX0.hdr.take 35).length INDEX_LAST (some [88]) = -1
      ∧ cal_read_block_exit (fun _ => true) (secX0.hdr.take 35) (some [88]) 0 = .not_found
      ∧ cal_read_block (fun _ => true) (secX0.hdr.take 35) (some [88]) 0 = (-1, none) :=
  short_image_not_found (fun _ => true) (secX0.hdr.take 35) (some [88]) 0 INDEX_LAST
    (by decide)

/-! ## Sections with an empty payload (C14) -/

/-- C14: zero-length payload sections are valid. For every image consisting of one 36-byte
header with the magic, name `X`, length 0, `datasum` 0 and `hdrsum` the `crc32` with seed 0
of its first 32 bytes, `cal_read_block(image, X, 0)` returns 0 and an empty block with
`len = 0` (the allocation of the block is assumed to succeed, as for every read). And with
the cursor on such a header, followed by any bytes, a pass of the loop of `find_section`
that goes round again continues at exactly 36 bytes past the start of the header, with 36
bytes fewer to scan; in Latest selection the pass always goes round again. -/
theorem zero_length_section (malloc : Nat → Bool) (X hdr : List Nat)
    (hlen : hdr.length = 36) (hmagic : hdr_magic hdr = HDR_MAGIC) (hname : sectname hdr = X)
    (hzero : hdr_length hdr = 0) (hds : hdr_datasum hdr = 0)
    (hhs : hdr_hdrsum hdr = crc32 0 (hdr.take 32)) (hmalloc : malloc 0 = true) :
    cal_read_block malloc hdr (some X) 0 = (0, some ([], 0))
      ∧ (∀ (want_index : Int) (want_name : Option (List Nat)) (pre tail : List Nat)
          (found prev : Int) (u : ScanState),
          find_section_body (pre ++ (hdr ++ tail)) want_index want_name
              { count := (hdr ++ tail).length, offset := pre.length,
                found_offset := found, previous_index := prev } = .next u →
            u.offset = pre.length + 36 ∧ u.count + 36 = (hdr ++ tail).length)
      ∧ (∀ (want_name : Option (List Nat)) (pre tail : List Nat) (found prev : Int),
          ∃ u, find_section_body (pre ++ (hdr ++ tail)) INDEX_LAST want_name
              { count := (hdr ++ tail).length, offset := pre.length,
                found_offset := found, previous_index := prev } = .next u) := by
  have hwf : (⟨hdr, []⟩ : Sect).WellFormed := ⟨hlen, hmagic, hzero⟩
  have hbytes : (⟨hdr, []⟩ : Sect).bytes.length = 36 := by simp [Sect.bytes, hlen]
  have hbody : ∀ (want_index : Int) (want_name : Option (List Nat)) (pre tail : List Nat)
      (found prev : Int),
      find_section_body (pre ++ (hdr ++ tail)) want_index want_name
          { count := (hdr ++ tail).length, offset := pre.length,
            found_offset := found, previous_index := prev }
        = if sel_skip want_index want_name prev hdr then
            .next { count := tail.length, offset := pre.length + 36,
                    found_offset := found, previous_index := prev }
          else if want_index = INDEX_LAST then
            .next { count := tail.length, offset := pre.length + 36,
                    found_offset := (pre.length : Int),
                    previous_index := (hdr_index hdr : Int) }
          else .ret (pre.length : Int) := by
    intro want_index want_name pre tail found prev
    have := find_section_body_section want_index want_name pre ⟨hdr, []⟩ tail hwf found prev
    simpa only [List.nil_append, hbytes] using this
  refine ⟨?_, ?_, ?_⟩
  · have himg : image_of [(⟨hdr, []⟩ : Sect)] = hdr := by simp [image_of_single]
    have hexit := cal_read_block_exit_single malloc X 0 ⟨hdr, []⟩ hwf hname
    rw [himg] at hexit
    unfold cal_read_block
    rw [hexit]
    unfold read_checks
    have hcrc : crc32 0 [] = 0 := rfl
    simp [← hhs, hds, hcrc, hmalloc, ReadExit.value, ReadExit.block]
  · intro want_index want_name pre tail found prev u hu
    rw [hbody] at hu
    have hcount : (hdr ++ tail).length = tail.length + 36 := by simp [hlen]; omega
    split_ifs at hu <;> injection hu with hu <;> subst hu <;> exact ⟨rfl, hcount.symm⟩
  · intro want_name pre tail found prev
    rw [hbody]
    split_ifs with h1
    · exact ⟨_, rfl⟩
    · exact ⟨_, rfl⟩
    · rename_i h2; exact absurd rfl h2

set_option maxRecDepth 100000 in
/-- Instance of C14: the header of `secXempty`, with a `malloc` that succeeds. -/
theorem zero_length_section_witness :
    cal_read_block (fun _ => true) secXempty.hdr (some [88]) 0 = (0, some ([], 0))
      ∧ (∀ (want_index : Int) (want_name : Option (List Nat)) (pre tail : List Nat)
          (found prev : Int) (u : ScanState),
          find_section_body (pre ++ (secXempty.hdr ++ tail)) want_index want_name
              { count := (secXempty.hdr ++ tail).length, offset := pre.length,
                found_offset := found, previous_index := prev } = .next u →
            u.offset = pre.length + 36 ∧ u.count + 36 = (secXempty.hdr ++ tail).length)
      ∧ (∀ (want_name : Option (List Nat)) (pre tail : List Nat) (found prev : Int),
          ∃ u, find_section_body (pre ++ (secXempty.hdr ++ tail)) INDEX_LAST want_name
              { count := (secXempty.hdr ++ tail).length, offset := pre.length,
                found_offset := found, previous_index := prev } = .next u) :=
  zero_length_section (fun _ => true) [88] secXempty.hdr
    (by decide) (by decide) (by decide) (by decide) (by decide) (by decide) rfl

/-! ## Resynchronisation (C15) -/

/-- While no header can start at the cursor, the scan from the start is the scan from the
cursor moved one byte at a time. -/
theorem find_section_loop_skip (data : List Nat) (n k : Nat) (want_index : Int)
    (want_name : Option (List Nat))
    (hno : ∀ i < k, is_header (data.drop i) (n - i) = false) :
    ∀ j, j ≤ k →
      find_section_loop data want_index want_name (scan_start n)
        = find_section_loop data want_index want_name
            { count := n - j, offset := j, found_offset := -1, previous_index := -1 } := by
  intro j
  induction j with
  | zero => intro _; rfl
  | succ j ih =>
    intro hj
    rw [ih (by omega)]
    by_cases hshort : n - j < HDR_SIZE
    · have hshort2 : n - (j + 1) < HDR_SIZE := by omega
      rw [find_section_loop_ret _ _ _ _ _ (find_section_body_short data _ _ _ hshort),
        find_section_loop_ret _ _ _ _ _ (find_section_body_short data _ _ _ hshort2)]
    · have hbody : find_section_body data want_index want_name
            { count := n - j, offset := j, found_offset := -1, previous_index := -1 }
          = .next { count := n - j - 1, offset := j + 1, found_offset := -1,
                    previous_index := -1 } := by
        rw [find_section_body_eq, if_neg hshort, if_pos (hno j (by omega))]
      rw [find_section_loop_next _ _ _ _ _ hbody]
      rfl

/-- The scan of `data` from the cursor `k + o` is the scan of `data + k` from the cursor
`o`, with every offset moved up by `k`. -/
theorem find_section_loop_shift (data : List Nat) (k : Nat) (want_index : Int)
    (want_name : Option (List Nat)) :
    ∀ (c o : Nat) (f p : Int), -1 ≤ f →
      find_section_loop data want_index want_name
          { count := c, offset := k + o, found_offset := shift_offset k f, previous_index := p }
        = shift_offset k (find_section_loop (data.drop k) want_index want_name
            { count := c, offset := o, found_offset := f, previous_index := p })
      ∧ -1 ≤ find_section_loop (data.drop k) want_index want_name
            { count := c, offset := o, found_offset := f, previous_index := p } := by
  intro c
  induction c using Nat.strong_induction_on with
  | _ c ih =>
    intro o f p hf
    have hsz : HDR_SIZE = 36 := rfl
    have hd : data.drop (k + o) = (data.drop k).drop o := by rw [List.drop_drop]
    have hoff : shift_offset k (o : Int) = ((k + o : Nat) : Int) := by
      unfold shift_offset
      have : ¬ ((o : Int) = -1) := by omega
      rw [if_neg this]; push_cast; rfl
    have hneg : shift_offset k (-1) = -1 := by simp [shift_offset]
    by_cases h1 : c < HDR_SIZE
    · have hb1 : find_section_body data want_index want_name
            { count := c, offset := k + o, found_offset := shift_offset k f,
              previous_index := p } = .ret (shift_offset k f) :=
        find_section_body_short data _ _ _ h1
      have hb2 : find_section_body (data.drop k) want_index want_name
            { count := c, offset := o, found_offset := f, previous_index := p } = .ret f :=
        find_section_body_short _ _ _ _ h1
      rw [find_section_loop_ret _ _ _ _ _ hb1, find_section_loop_ret _ _ _ _ _ hb2]
      exact ⟨rfl, hf⟩
    by_cases h2 : is_header ((data.drop k).drop o) c = false
    · have hb1 : find_section_body data want_index want_name
            { count := c, offset := k + o, found_offset := shift_offset k f,
              previous_index := p }
          = .next { count := c - 1, offset := k + (o + 1), found_offset := shift_offset k f,
                    previous_index := p } := by
        rw [find_section_body_eq]; simp only [hd]; rw [if_neg h1, if_pos h2]; rfl
      have hb2 : find_section_body (data.drop k) want_index want_name
            { count := c, offset := o, found_offset := f, previous_index := p }
          = .next { count := c - 1, offset := o + 1, found_offset := f,
                    previous_index := p } := by
        rw [find_section_body_eq, if_neg h1, if_pos h2]
      rw [find_section_loop_next _ _ _ _ _ hb1, find_section_loop_next _ _ _ _ _ hb2]
      exact ih (c - 1) (by omega) (o + 1) f p hf
    by_cases h3 : c - HDR_SIZE < hdr_length ((data.drop k).drop o)
    · have hb1 : find_section_body data want_index want_name
            { count := c, offset := k + o, found_offset := shift_offset k f,
              previous_index := p } = .ret (-1) := by
        rw [find_section_body_eq]; simp only [hd]; rw [if_neg h1, if_neg h2, if_pos h3]
      have hb2 : find_section_body (data.drop k) want_index want_name
            { count := c, offset := o, found_offset := f, previous_index := p }
          = .ret (-1) := by
        rw [find_section_body_eq, if_neg h1, if_neg h2, if_pos h3]
      rw [find_section_loop_ret _ _ _ _ _ hb1, find_section_loop_ret _ _ _ _ _ hb2]
      exact ⟨hneg.symm, le_refl _⟩
    by_cases h4 : sel_skip want_index want_name p ((data.drop k).drop o) = true
    · have hb1 : find_section_body data want_index want_name
            { count := c, offset := k + o, found_offset := shift_offset k f,
              previous_index := p }
          = .next { count := c - (HDR_SIZE + hdr_length ((data.drop k).drop o)),
                    offset := k + (o + (HDR_SIZE + hdr_length ((data.drop k).drop o))),
                    found_offset := shift_offset k f, previous_index := p } := by
        rw [find_section_body_eq]; simp only [hd]
        rw [if_neg h1, if_neg h2, if_neg h3, if_pos h4, Nat.add_assoc]
      have hb2 : find_section_body (data.drop k) want_index want_name
            { count := c, offset := o, found_offset := f, previous_index := p }
          = .next { count := c - (HDR_SIZE + hdr_length ((data.drop k).drop o)),
                    offset := o + (HDR_SIZE + hdr_length ((data.drop k).drop o)),
                    found_offset := f, previous_index := p } := by
        rw [find_section_body_eq, if_neg h1, if_neg h2, if_neg h3, if_pos h4]
      rw [find_section_loop_next _ _ _ _ _ hb1, find_section_loop_next _ _ _ _ _ hb2]
      exact ih _ (by omega) _ f p hf
    by_cases h5 : want_index = INDEX_LAST
    · have hb1 : find_section_body data want_index want_name
            { count := c, offset := k + o, found_offset := shift_offset k f,
              previous_index := p }
          = .next { count := c - (HDR_SIZE + hdr_length ((data.drop k).drop o)),
                    offset := k + (o + (HDR_SIZE + hdr_length ((data.drop k).drop o))),
                    found_offset := shift_offset k (o : Int),
                    previous_index := (hdr_index ((data.drop k).drop o) : Int) } := by
        rw [find_section_body_eq]; simp only [hd]
        rw [if_neg h1, if_neg h2, if_neg h3, if_neg h4, if_pos h5, Nat.add_assoc, hoff]
      have hb2 : find_section_body (data.drop k) want_index want_name
            { count := c, offset := o, found_offset := f, previous_index := p }
          = .next { count := c - (HDR_SIZE + hdr_length ((data.drop k).drop o)),
                    offset := o + (HDR_SIZE + hdr_length ((data.drop k).drop o)),
                    found_offset := (o : Int),
                    previous_index := (hdr_index ((data.drop k).drop o) : Int) } := by
        rw [find_section_body_eq, if_neg h1, if_neg h2, if_neg h3, if_neg h4, if_pos h5]
      rw [find_section_loop_next _ _ _ _ _ hb1, find_section_loop_next _ _ _ _ _ hb2]
      exact ih _ (by omega) _ _ _ (by omega)
    · have hb1 : find_section_body data want_index want_name
            { count := c, offset := k + o, found_offset := shift_offset k f,
              previous_index := p } = .ret (shift_offset k (o : Int)) := by
        rw [find_section_body_eq]; simp only [hd]
        rw [if_neg h1, if_neg h2, if_neg h3, if_neg h4, if_neg h5, hoff]
      have hb2 : find_section_body (data.drop k) want_index want_name
            { count := c, offset := o, found_offset := f, previous_index := p }
          = .ret (o : Int) := by
        rw [find_section_body_eq, if_neg h1, if_neg h2, if_neg h3, if_neg h4, if_neg h5]
      rw [find_section_loop_ret _ _ _ _ _ hb1, find_section_loop_ret _ _ _ _ _ hb2]
      exact ⟨rfl, by omega⟩

/-- The scan of a buffer whose first `k` offsets hold no header is the scan of the buffer
without its first `k` bytes, moved up by `k`. -/
theorem find_section_drop (data : List Nat) (n k : Nat) (want_index : Int)
    (want_name : Option (List Nat))
    (hno : ∀ i < k, is_header (data.drop i) (n - i) = false) :
    find_section data n want_index want_name
        = shift_offset k (find_section (data.drop k) (n - k) want_index want_name)
      ∧ -1 ≤ find_section (data.drop k) (n - k) want_index want_name := by
  have hskip := find_section_loop_skip data n k want_index want_name hno k (le_refl _)
  have hshift := find_section_loop_shift data k want_index want_name (n - k) 0 (-1) (-1)
    (le_refl _)
  have hneg : shift_offset k (-1) = -1 := by simp [shift_offset]
  rw [hneg, Nat.add_zero] at hshift
  unfold find_section
  unfold scan_start at hskip
  rw [hskip]
  exact hshift

/-- C15: resynchronisation skips stray bytes one at a time. For every image of size `n`,
every selector and name, and every `k` (at most `n` or not) such that no offset `i < k`
holds the four bytes `ConF` with at least 36 bytes remaining, `find_section(image, n, ...)`
is `-1` exactly when `find_section(image + k, n - k, ...)` is `-1`, and otherwise equals
`k` plus that result. -/
theorem resync_skips_prefix (data : List Nat) (n k : Nat) (want_index : Int)
    (want_name : Option (List Nat))
    (hno : ∀ i < k, is_header (data.drop i) (n - i) = false) :
    (find_section data n want_index want_name = -1
        ↔ find_section (data.drop k) (n - k) want_index want_name = -1)
      ∧ (find_section (data.drop k) (n - k) want_index want_name ≠ -1 →
          find_section data n want_index want_name
            = (k : Int) + find_section (data.drop k) (n - k) want_index want_name) := by
  obtain ⟨heq, hge⟩ := find_section_drop data n k want_index want_name hno
  rw [heq]
  unfold shift_offset
  by_cases hr : find_section (data.drop k) (n - k) want_index want_name = -1
  · simp [hr]
  · rw [if_neg hr]
    refine ⟨?_, fun _ => rfl⟩
    constructor
    · intro h; omega
    · intro h; exact absurd h hr

/-- Instance of C15: two stray bytes in front of the section `secX0`. -/
theorem resync_skips_prefix_witness :
    (find_section ([9, 9] ++ image_of [secX0]) 41 INDEX_LAST (some [88]) = -1
        ↔ find_section (([9, 9] ++ image_of [secX0]).drop 2) (41 - 2) INDEX_LAST (some [88])
            = -1)
      ∧ (find_section (([9, 9] ++ image_of [secX0]).drop 2) (41 - 2) INDEX_LAST (some [88])
            ≠ -1 →
          find_section ([9, 9] ++ image_of [secX0]) 41 INDEX_LAST (some [88])
            = ((2 : Nat) : Int)
              + find_section (([9, 9] ++ image_of [secX0]).drop 2) (41 - 2) INDEX_LAST
                  (some [88])) :=
  resync_skips_prefix ([9, 9] ++ image_of [secX0]) 41 2 INDEX_LAST (some [88]) (by decide)

/-! ## Termination (C16) -/

theorem find_section_passes_ret (data : List Nat) (want_index : Int)
    (want_name : Option (List Nat)) (s : ScanState) (r : Int)
    (h : find_section_body data want_index want_name s = .ret r) :
    find_section_passes data want_index want_name s = 1 := by
  rw [find_section_passes]; split
  · rfl
  · rename_i t h2; rw [h] at h2; cases h2

theorem find_section_passes_next (data : List Nat) (want_index : Int)
    (want_name : Option (List Nat)) (s t : ScanState)
    (h : find_section_body data want_index want_name s = .next t) :
    find_section_passes data want_index want_name s
      = find_section_passes data want_index want_name t + 1 := by
  rw [find_section_passes]; split
  · rename_i r2 h2; rw [h] at h2; cases h2
  · rename_i t2 h2; rw [h] at h2; cases h2; rfl

/-- How a pass that goes round again changes `count` and `offset`: a resynchronisation step
or a step over a section that fits. -/
theorem find_section_body_step (data : List Nat) (want_index : Int)
    (want_name : Option (List Nat)) (s t : ScanState)
    (h : find_section_body data want_index want_name s = .next t) :
    (t.count + 1 = s.count ∧ t.offset = s.offset + 1)
      ∨ (t.count + (36 + hdr_length (data.drop s.offset)) = s.count
          ∧ t.offset = s.offset + (36 + hdr_length (data.drop s.offset))) := by
  have hsz : HDR_SIZE = 36 := rfl
  rw [find_section_body_eq] at h
  split_ifs at h with h1 h2 h3 h4 h5
  · injection h with h; subst h; left; exact ⟨by simp only []; omega, rfl⟩
  · injection h with h; subst h; right; exact ⟨by simp only []; omega, by simp only [hsz]⟩
  · injection h with h; subst h; right; exact ⟨by simp only []; omega, by simp only [hsz]⟩

/-- The loop makes at most `count - 34` passes, and one pass when `count < 36`. -/
theorem find_section_passes_le (data : List Nat) (want_index : Int)
    (want_name : Option (List Nat)) :
    ∀ (c : Nat) (s : ScanState), s.count = c →
      find_section_passes data want_index want_name s
        ≤ if s.count < 36 then 1 else s.count - 34 := by
  intro c
  induction c using Nat.strong_induction_on with
  | _ c ih =>
    intro s hc
    cases hb : find_section_body data want_index want_name s with
    | ret r =>
      rw [find_section_passes_ret _ _ _ _ _ hb]
      split <;> omega
    | next t =>
      rw [find_section_passes_next _ _ _ _ _ hb]
      have hdec := find_section_body_decreases data want_index want_name s t hb
      have hlong : ¬ s.count < 36 := by
        intro hlt
        rw [find_section_body_short data want_index want_name s hlt] at hb
        cases hb
      have := ih t.count (by omega) t rfl
      rw [if_neg hlong]
      split at this <;> omega

/-- C16: `find_section` terminates on every buffer, count, selector and name. Every pass of
the loop that does not leave it strictly decreases `count`, by 1 on a resynchronisation
step and by `36 + length` on a section step, without wrapping below zero (the decrement is
at most `count`). So the passes that go round again number at most the initial count (all
passes, at most the initial count when it is not 0), and running the loop for at most
`count + 1` passes gives the result of `find_section`, whose embedding is total by
well-founded recursion on `count`. -/
theorem find_section_terminates (data : List Nat) (count : Nat) (want_index : Int)
    (want_name : Option (List Nat)) (s t : ScanState)
    (hstep : find_section_body data want_index want_name s = .next t) :
    t.count < s.count
      ∧ ((t.count + 1 = s.count ∧ t.offset = s.offset + 1)
          ∨ (t.count + (36 + hdr_length (data.drop s.offset)) = s.count
              ∧ t.offset = s.offset + (36 + hdr_length (data.drop s.offset))))
      ∧ find_section_passes data want_index want_name (scan_start count) - 1 ≤ count
      ∧ (1 ≤ count → find_section_passes data want_index want_name (scan_start count) ≤ count)
      ∧ find_section data count want_index want_name
          = find_section_fuel data want_index want_name (count + 1) (scan_start count) := by
  have hle := find_section_passes_le data want_index want_name count (scan_start count) rfl
  have hc : (scan_start count).count = count := rfl
  rw [hc] at hle
  refine ⟨find_section_body_decreases _ _ _ _ _ hstep,
    find_section_body_step _ _ _ _ _ hstep, ?_, ?_, find_section_eq_fuel _ _ _ _⟩
  · split at hle <;> omega
  · intro h1
    split at hle <;> omega

/-- Instance of C16: the first pass on the image made of `secX0` steps over the section,
from 39 bytes left to none. -/
theorem find_section_terminates_witness :
    (0 : Nat) < 39
      ∧ (((0 : Nat) + 1 = 39 ∧ (39 : Nat) = 0 + 1)
          ∨ ((0 : Nat) + (36 + hdr_length ((image_of [secX0]).drop 0)) = 39
              ∧ (39 : Nat) = 0 + (36 + hdr_length ((image_of [secX0]).drop 0))))
      ∧ find_section_passes (image_of [secX0]) INDEX_LAST (some [88]) (scan_start 39) - 1 ≤ 39
      ∧ (1 ≤ 39 →
          find_section_passes (image_of [secX0]) INDEX_LAST (some [88]) (scan_start 39) ≤ 39)
      ∧ find_section (image_of [secX0]) 39 INDEX_LAST (some [88])
          = find_section_fuel (image_of [secX0]) INDEX_LAST (some [88]) (39 + 1)
              (scan_start 39) :=
  find_section_terminates (image_of [secX0]) 39 INDEX_LAST (some [88])
    { count := 39, offset := 0, found_offset := -1, previous_index := -1 }
    { count := 0, offset := 39, found_offset := 0, previous_index := 0 } (by decide)

/-! ## The bounds invariant of the scanner (C17) -/

/-- At the start of every pass, `offset + count` is the count the loop was entered with. -/
theorem reaches_offset_count (data : List Nat) (want_index : Int)
    (want_name : Option (List Nat)) (s t : ScanState)
    (h : Reaches data want_index want_name s t) :
    t.offset + t.count = s.offset + s.count := by
  induction h with
  | start => rfl
  | pass t u _ hbody ih =>
    have hspec := find_section_body_spec data want_index want_name t
    rw [hbody] at hspec
    rw [← ih]; exact hspec.1

/-- C17: the bounds invariant of the scanner. At the start of every pass of the loop of
`find_section`, `offset + count` equals the initial count. Consequently every non-negative
result `r` satisfies `image[r..r+4) = ConF` and `r + 36 + length_at(r) <= initial count`;
so, the count being at most the size of the image, the header, the 32 bytes of the header
checksum and the `length` bytes of the payload that `cal_read_block` reads at `r` all lie
inside the image. -/
theorem scanner_bounds (data : List Nat) (n : Nat) (want_index : Int)
    (want_name : Option (List Nat)) (t : ScanState)
    (hreach : Reaches data want_index want_name (scan_start n) t) :
    t.offset + t.count = n
      ∧ (find_section data n want_index want_name = -1
          ∨ ∃ r : Nat, find_section data n want_index want_name = (r : Int)
              ∧ (data.drop r).take 4 = HDR_MAGIC
              ∧ r + 36 + hdr_length (data.drop r) ≤ n
              ∧ (n ≤ data.length →
                  ((data.drop r).take 36).length = 36
                  ∧ ((data.drop r).take 32).length = 32
                  ∧ ((data.drop (r + 36)).take (hdr_length (data.drop r))).length
                      = hdr_length (data.drop r))) := by
  refine ⟨?_, ?_⟩
  · have := reaches_offset_count data want_index want_name _ t hreach
    simpa [scan_start] using this
  · rcases find_section_good data n want_index want_name with h | ⟨r, hr, hbound, hmagic, _⟩
    · exact Or.inl h
    · right
      have hsz : HDR_SIZE = 36 := rfl
      refine ⟨r, hr, hmagic, by omega, fun hsize => ⟨?_, ?_, ?_⟩⟩
      · simp only [List.length_take, List.length_drop]; omega
      · simp only [List.length_take, List.length_drop]; omega
      · simp only [List.length_take, List.length_drop]; omega

/-- Instance of C17: the image made of `secX0` and `secX1`, after the pass over `secX0`. -/
theorem scanner_bounds_witness :
    (39 : Nat) + 38 = 77
      ∧ (find_section (image_of [secX0, secX1]) 77 INDEX_LAST (some [88]) = -1
          ∨ ∃ r : Nat, find_section (image_of [secX0, secX1]) 77 INDEX_LAST (some [88]) = (r : Int)
              ∧ ((image_of [secX0, secX1]).drop r).take 4 = HDR_MAGIC
              ∧ r + 36 + hdr_length ((image_of [secX0, secX1]).drop r) ≤ 77
              ∧ (77 ≤ (image_of [secX0, secX1]).length →
                  (((image_of [secX0, secX1]).drop r).take 36).length = 36
                  ∧ (((image_of [secX0, secX1]).drop r).take 32).length = 32
                  ∧ (((image_of [secX0, secX1]).drop (r + 36)).take
                        (hdr_length ((image_of [secX0, secX1]).drop r))).length
                      = hdr_length ((image_of [secX0, secX1]).drop r))) :=
  scanner_bounds (image_of [secX0, secX1]) 77 INDEX_LAST (some [88])
    { count := 38, offset := 39, found_offset := 0, previous_index := 0 }
    (Reaches.pass _ _ Reaches.start (by decide))

/-! ## Payload bytes are not scanned (C18) -/

/-- On sections with the same headers and payloads of the declared sizes, the scan goes the
same way. -/
theorem scan_sections_hdr (want_index : Int) (want_name : Option (List Nat))
    (secs : List Sect) :
    ∀ (secs2 : List Sect) (off : Nat) (found prev : Int),
      (∀ s ∈ secs, s.WellFormed) → (∀ s ∈ secs2, s.WellFormed) →
      secs.map Sect.hdr = secs2.map Sect.hdr →
      scan_sections want_index want_name secs off found prev
        = scan_sections want_index want_name secs2 off found prev := by
  induction secs with
  | nil =>
    intro secs2 off found prev _ _ h
    cases secs2 with
    | nil => rfl
    | cons a l => simp at h
  | cons s rest ih =>
    intro secs2 off found prev hwf hwf2 h
    cases secs2 with
    | nil => simp at h
    | cons s2 rest2 =>
      simp only [List.map_cons, List.cons.injEq] at h
      obtain ⟨hh, hrest⟩ := h
      have hs := hwf s (by simp)
      have hs2 := hwf2 s2 (by simp)
      have hlen : s.bytes.length = s2.bytes.length := by
        rw [Sect.bytes_length s hs, Sect.bytes_length s2 hs2, ← hs.2.2, ← hs2.2.2, hh]
      have ihr := ih rest2 (off + s.bytes.length)
      unfold scan_sections
      rw [← hh, ← hlen]
      rw [ihr found prev (fun t ht => hwf t (by simp [ht])) (fun t ht => hwf2 t (by simp [ht]))
          hrest,
        ihr (off : Int) (hdr_index s.hdr : Int) (fun t ht => hwf t (by simp [ht]))
          (fun t ht => hwf2 t (by simp [ht])) hrest]

theorem image_of_length_hdr (secs : List Sect) :
    ∀ (secs2 : List Sect), (∀ s ∈ secs, s.WellFormed) → (∀ s ∈ secs2, s.WellFormed) →
      secs.map Sect.hdr = secs2.map Sect.hdr →
      (image_of secs).length = (image_of secs2).length := by
  induction secs with
  | nil =>
    intro secs2 _ _ h
    cases secs2 with
    | nil => rfl
    | cons a l => simp at h
  | cons s rest ih =>
    intro secs2 hwf hwf2 h
    cases secs2 with
    | nil => simp at h
    | cons s2 rest2 =>
      simp only [List.map_cons, List.cons.injEq] at h
      obtain ⟨hh, hrest⟩ := h
      have hs := hwf s (by simp)
      have hs2 := hwf2 s2 (by simp)
      have hp : s.payload.length = s2.payload.length := by
        rw [← hs.2.2, ← hs2.2.2, hh]
      have := ih rest2 (fun t ht => hwf t (by simp [ht])) (fun t ht => hwf2 t (by simp [ht]))
        hrest
      simp only [image_of_cons, List.length_append, hh, hp, this]

/-- C18: payload bytes are never interpreted as headers. For two images that are
back-to-back concatenations of sections with the same headers in the same order, each
header followed by a payload of the size it declares (so the images have equal size, the
headers lie at identical offsets, and the images differ in payload bytes only),
`find_section` returns the same result for every selector and name, whatever the payloads
hold, the magic `ConF` or a complete well-formed section included. -/
theorem payloads_not_scanned (secs secs2 : List Sect) (want_index : Int)
    (want_name : Option (List Nat))
    (hwf : ∀ s ∈ secs, s.WellFormed) (hwf2 : ∀ s ∈ secs2, s.WellFormed)
    (hhdr : secs.map Sect.hdr = secs2.map Sect.hdr) :
    (image_of secs).length = (image_of secs2).length
      ∧ find_section (image_of secs) (image_of secs).length want_index want_name
          = find_section (image_of secs2) (image_of secs2).length want_index want_name := by
  refine ⟨image_of_length_hdr secs secs2 hwf hwf2 hhdr, ?_⟩
  rw [find_section_sections _ _ _ hwf, find_section_sections _ _ _ hwf2]
  exact scan_sections_hdr want_index want_name secs secs2 0 (-1) (-1) hwf hwf2 hhdr

/-- Instance of C18: the payload of `secXouter` is a complete well-formed section named `X`
of index 1; replacing it by 38 zero bytes does not change the result of the scan. -/
theorem payloads_not_scanned_witness :
    (image_of [secXouter, secY]).length = (image_of [secXouterBlank, secY]).length
      ∧ find_section (image_of [secXouter, secY]) (image_of [secXouter, secY]).length
            INDEX_LAST (some [88])
          = find_section (image_of [secXouterBlank, secY])
              (image_of [secXouterBlank, secY]).length INDEX_LAST (some [88]) :=
  payloads_not_scanned [secXouter, secY] [secXouterBlank, secY] INDEX_LAST (some [88])
    (by decide) (by decide) (by decide)

end Cal
